import Mathlib

/-!
Shallow embedding of the vagon-management-example repository
(src/app.py, src/vagon_api.py) and proofs about it.

Python dynamic values are modelled by `PyVal`; JSON objects become
association lists with string keys (Python dicts arising from JSON always
have string keys, and `dict` preserves insertion order, mirrored here).
Fallible Python code (uncaught exceptions) is modelled with `Except`.
-/

/-- Model of a Python/JSON dynamic value: the shapes that occur in the
JSON-handling code of `src/vagon_api.py`. `obj` is an insertion-ordered
association list, mirroring a CPython `dict` parsed from JSON. -/
inductive PyVal where
  | none : PyVal
  | bool : Bool → PyVal
  | int : Int → PyVal
  | str : String → PyVal
  | list : List PyVal → PyVal
  | obj : List (String × PyVal) → PyVal
deriving Repr

/-- Python truthiness (`if x:`) for the modelled value shapes. -/
def pyTruthy : PyVal → Bool
  | PyVal.none => false
  | PyVal.bool b => b
  | PyVal.int n => n != 0
  | PyVal.str s => s != ""
  | PyVal.list l => !l.isEmpty
  | PyVal.obj d => !d.isEmpty

/-- Association-list lookup (first match; a Python dict has no duplicate
keys, so the first match is the only one). -/
def dictFind : List (String × PyVal) → String → Option PyVal
  | [], _ => Option.none
  | (k', v) :: rest, k => if k' = k then Option.some v else dictFind rest k

/-- Python `d.get(k, default)`. -/
def dictGetD (d : List (String × PyVal)) (k : String) (default : PyVal) : PyVal :=
  match dictFind d k with
  | Option.some v => v
  | Option.none => default

/-- Python `k in d`. -/
def dictHas (d : List (String × PyVal)) (k : String) : Bool :=
  (dictFind d k).isSome

/-- Python `d[k] = v` on an insertion-ordered dict: overwrite in place if
the key exists, otherwise append at the end. -/
def setKey : List (String × PyVal) → String → PyVal → List (String × PyVal)
  | [], k, v => [(k, v)]
  | (k', v') :: rest, k, v =>
    if k' = k then (k, v) :: rest else (k', v') :: setKey rest k v

/-- Python `d.update(other)` for a dict argument: fold `d[k] = v` over the
argument's entries in order. -/
def updateObj (d : List (String × PyVal)) (kvs : List (String × PyVal)) :
    List (String × PyVal) :=
  kvs.foldl (fun acc kv => setKey acc kv.1 kv.2) d

/-!
format_bytes (src/vagon_api.py).

The Python loop repeatedly divides a float by 1024. The single inexact
float operation is the first division `size /= 1024`: CPython computes the
correctly rounded double of the integer quotient, which rounds the integer
to 53 significant bits (`roundFloat`); every later division by 1024 only
shifts the binary exponent and is exact. So after `k ≥ 1` divisions the
float is exactly the rational `roundFloat size / 1024^k`, and the first
iteration (unit "B") compares and formats the exact integer. The embedding
carries the pair `(num, k)` and does exact integer arithmetic on it: the
comparison `num/1024^k < 1024` is `num < 1024^(k+1)`, and CPython's `.2f`
formatting (round to two decimals, ties to even, on the float's exact
value) is `halfEvenDiv (num * 100) (1024^k)`. The model is faithful below
the double overflow threshold (CPython raises OverflowError on `int/int`
quotients at roughly 2^1024 and beyond).
-/

/-- Round `a / b` (with `b > 0`) to the nearest integer, ties to even —
the rounding CPython's `.2f` float formatting performs. -/
def halfEvenDiv (a b : ℕ) : ℕ :=
  let q := a / b
  let r := a % b
  if 2 * r < b then q
  else if b < 2 * r then q + 1
  else if q % 2 = 0 then q else q + 1

/-- Python `f-string` two-decimal formatting of the exact value
`num / 1024^k`: `fmtTwoDecAt 0 0 = "0.00"`, `fmtTwoDecAt 1536 1 = "1.50"`. -/
def fmtTwoDecAt (num k : ℕ) : String :=
  let n := halfEvenDiv (num * 100) (1024 ^ k)
  let ip := n / 100
  let fp := n % 100
  toString ip ++ "." ++ (if fp < 10 then "0" ++ toString fp else toString fp)

/-- The unit loop of `format_bytes`: the current float value is
`num / 1024^k`; walk through the remaining unit names, dividing by 1024
(incrementing `k`) while the value is not below 1024; fall through to "PB". -/
def fbLoop (num : ℕ) : ℕ → List String → String
  | k, [] => fmtTwoDecAt num k ++ " PB"
  | k, u :: rest =>
    if num < 1024 ^ (k + 1) then fmtTwoDecAt num k ++ " " ++ u
    else fbLoop num (k + 1) rest

/-- The nearest IEEE double to the integer `n` (round to nearest, ties to
even), as an integer: the identity below 2^53, otherwise `n` rounded to
its top 53 significant bits. This is the rounding CPython's first
`size /= 1024` performs on the integer byte count (division by 1024 then
only shifts the exponent). -/
def roundFloat (n : ℕ) : ℕ :=
  if n < 2 ^ 53 then n
  else halfEvenDiv n (2 ^ (Nat.log2 n - 52)) * 2 ^ (Nat.log2 n - 52)

/-- Embedding of `format_bytes` (src/vagon_api.py): format a byte count as
a human-readable string. The first iteration compares and formats the
exact integer; once the first division happens the value is the float
`roundFloat size / 1024^k`. -/
def format_bytes (size : ℕ) : String :=
  if size < 1024 then fmtTwoDecAt size 0 ++ " B"
  else fbLoop (roundFloat size) 1 ["KB", "MB", "GB", "TB"]


/-!
flatten_jsonapi_resource / flatten_jsonapi_list (src/vagon_api.py).

The Python recursion is modelled with a fuel parameter (`pySize` of the
input strictly bounds the recursion depth, so the top-level wrapper never
exhausts it on any input). An uncaught Python exception — `TypeError`
from `result.update(attributes)` when `attributes` is truthy but not a
mapping, `AttributeError` from `.get` on a truthy non-dict resource —
is an `Except.error`.
-/

/-- Condition under which the relation-flattening loop recurses: the value
is a dict containing an `attributes` key
(`isinstance(result[key], dict) and 'attributes' in result[key]`). -/
def isFlattenableSub : PyVal → Bool
  | PyVal.obj sub => dictHas sub "attributes"
  | _ => false

/-- Conversion of one element of a `dict.update` sequence argument to a
key/value pair, as CPython's `PyDict_MergeFromSeq2` does: the element must
be an iterable of length 2 (a 2-element list, a 2-character string, or a
2-key dict, which iterates over its keys), else `ValueError`/`TypeError`;
the key must be hashable. `Except.ok Option.none` marks the one shape
outside this model's value universe: a pair whose key is `None`, a bool or
an int is accepted by CPython and produces a non-string dict key, which
the string-keyed JSON-object dicts modelled here cannot carry; such an
entry is invisible to every string-key lookup the source performs, and the
model skips it. -/
def updateElemPair : PyVal → Except String (Option (String × PyVal))
  | PyVal.list [k, v] =>
    match k with
    | PyVal.str s => Except.ok (Option.some (s, v))
    | PyVal.none => Except.ok Option.none
    | PyVal.bool _ => Except.ok Option.none
    | PyVal.int _ => Except.ok Option.none
    | _ => Except.error "TypeError: unhashable type"
  | PyVal.list _ =>
    Except.error "ValueError: dictionary update sequence element has wrong length; 2 is required"
  | PyVal.str s =>
    match s.data with
    | [c0, c1] => Except.ok (Option.some (⟨[c0]⟩, PyVal.str ⟨[c1]⟩))
    | _ =>
      Except.error "ValueError: dictionary update sequence element has wrong length; 2 is required"
  | PyVal.obj kvs =>
    match kvs with
    | [(k0, _), (k1, _)] => Except.ok (Option.some (k0, PyVal.str k1))
    | _ =>
      Except.error "ValueError: dictionary update sequence element has wrong length; 2 is required"
  | _ =>
    Except.error "TypeError: cannot convert dictionary update sequence element to a sequence"

/-- Fold `d[k] = v` over the elements of a `dict.update` sequence
argument; the first bad element raises. -/
def updateFromPairs (d : List (String × PyVal)) : List PyVal → Except String (List (String × PyVal))
  | [] => Except.ok d
  | item :: rest =>
    match updateElemPair item with
    | Except.error e => Except.error e
    | Except.ok Option.none => updateFromPairs d rest
    | Except.ok (Option.some (k, v)) => updateFromPairs (setKey d k v) rest

/-- Python `result.update(attributes)` for an arbitrary `attributes`
value: a mapping merges; a list is an iterable of key/value pairs; a
non-empty string raises `ValueError` (its elements are 1-character
strings, too short to be pairs); `None`, bools and ints are not iterable
and raise `TypeError`. -/
def pyUpdateWith (d : List (String × PyVal)) : PyVal → Except String (List (String × PyVal))
  | PyVal.obj kvs => Except.ok (updateObj d kvs)
  | PyVal.list items => updateFromPairs d items
  | PyVal.str s =>
    if s = "" then Except.ok d
    else Except.error "ValueError: dictionary update sequence element has wrong length; 2 is required"
  | PyVal.int _ => Except.error "TypeError: int object is not iterable"
  | PyVal.bool _ => Except.error "TypeError: bool object is not iterable"
  | PyVal.none => Except.error "TypeError: NoneType object is not iterable"

/-- One iteration of the relation loop `for key in ['user', 'machine']`:
if the key is present and its value is a dict with an `attributes` key,
replace it by its (recursively computed) flattening `flat`. -/
def relStepWith (flat : PyVal → Except String (List (String × PyVal)))
    (res : List (String × PyVal)) (key : String) :
    Except String (List (String × PyVal)) :=
  match dictFind res key with
  | Option.some v =>
    if isFlattenableSub v then
      match flat v with
      | Except.error e => Except.error e
      | Except.ok f => Except.ok (setKey res key (PyVal.obj f))
    else Except.ok res
  | Option.none => Except.ok res

/-- The `softwares` handling: when the `softwares` value is a dict, replace
it by the flattening of its `data` list (or `[]` when `data` is not a
list); any other `softwares` value is left untouched. -/
def swStepWith (flat : PyVal → Except String (List (String × PyVal)))
    (res : List (String × PyVal)) :
    Except String (List (String × PyVal)) :=
  match dictFind res "softwares" with
  | Option.some (PyVal.obj sd) =>
    match dictGetD sd "data" (PyVal.list []) with
    | PyVal.list items =>
      match items.mapM flat with
      | Except.error e => Except.error e
      | Except.ok fl =>
        Except.ok (setKey res "softwares" (PyVal.list (fl.map PyVal.obj)))
    | _ => Except.ok (setKey res "softwares" (PyVal.list []))
  | _ => Except.ok res

/-- Fuelled embedding of `flatten_jsonapi_resource`: falsy input gives `{}`;
a truthy dict is flattened to `{id, type}` merged with its attributes, then
the `user`/`machine` relation loop and the `softwares` handling run; a
truthy non-dict raises `AttributeError`. -/
def flattenF : ℕ → PyVal → Except String (List (String × PyVal))
  | 0, _ => Except.error "recursion depth exceeded"
  | fuel + 1, resource =>
    if pyTruthy resource = false then Except.ok []
    else
      match resource with
      | PyVal.obj d =>
        let base := [("id", dictGetD d "id" PyVal.none),
                     ("type", dictGetD d "type" PyVal.none)]
        let attributes := dictGetD d "attributes" (PyVal.obj [])
        if pyTruthy attributes then
          match pyUpdateWith base attributes with
          | Except.error e => Except.error e
          | Except.ok merged =>
            match relStepWith (flattenF fuel) merged "user" with
            | Except.error e => Except.error e
            | Except.ok r1 =>
              match relStepWith (flattenF fuel) r1 "machine" with
              | Except.error e => Except.error e
              | Except.ok r2 => swStepWith (flattenF fuel) r2
        else Except.ok base
      | _ => Except.error "AttributeError: non-dict resource has no get"

/-- Structural size of a `PyVal`; it strictly bounds the recursion depth of
`flattenF`, making the fuel of `flatten_jsonapi_resource` sufficient. -/
def pySize : PyVal → ℕ
  | PyVal.obj ((_, v) :: rest) => 1 + pySize v + pySize (PyVal.obj rest)
  | PyVal.list (v :: rest) => 1 + pySize v + pySize (PyVal.list rest)
  | _ => 1

/-- Embedding of `flatten_jsonapi_resource` (src/vagon_api.py). `pySize`
of the input strictly bounds the recursion depth, so the fuel suffices. -/
def flatten_jsonapi_resource (resource : PyVal) :
    Except String (List (String × PyVal)) :=
  flattenF (pySize resource) resource

/-- Embedding of `flatten_jsonapi_list` (src/vagon_api.py): flatten each
item; the first raised exception propagates. -/
def flatten_jsonapi_list (items : List PyVal) :
    Except String (List (List (String × PyVal))) :=
  items.mapM flatten_jsonapi_resource



/-!
upload_file (src/app.py).

The chunk-upload loop of the `/api/files/upload` route. The environment
(S3 and the Vagon API) is a parameter: `put i` is what
`http_requests.put(upload_urls[i], ...)` does for chunk index `i` —
`Except.error e` when the call raises, otherwise the response. The model
returns the trace of issued PUT requests together with the outcome, where
`completed file_id parts` means `api_client.complete_upload` is invoked
with that exact parts list.
-/

/-- Response of one S3 presigned-URL PUT: `ok` is `response.ok`
(status < 400), `text` is `response.text`, `etag` is
`response.headers.get('ETag')`. -/
structure S3Response where
  ok : Bool
  text : String
  etag : Option String
deriving Repr, DecidableEq

/-- One part record `{'part_number': i + 1, 'etag': etag}` collected by the
loop and submitted to `complete_upload`. -/
structure PartRec where
  part_number : ℕ
  etag : String
deriving Repr, DecidableEq

/-- One issued chunk PUT: the URL it went to, the body slice, and the
`Content-Type` header. -/
structure PutReq where
  url : String
  data : List ℕ
  content_type : String
deriving Repr, DecidableEq

/-- Result of the chunk loop: either the error response returned from the
route (aborting before completion), or the final parts list reaching
`complete_upload`. -/
inductive LoopRes where
  | failed (msg : String)
  | done (parts : List PartRec)
deriving Repr, DecidableEq

/-- The slice `file_content[i*chunk_size : min((i+1)*chunk_size, file_size)]`
taken for chunk index `i` (Python slicing clamps at the content length). -/
def chunkSlice (content : List ℕ) (chunk_size i : ℕ) : List ℕ :=
  (content.drop (i * chunk_size)).take chunk_size

/-- The chunk loop `for i, upload_url in enumerate(upload_urls)`: PUT each
slice; a raised transport call or a non-ok response aborts with the
route's error message; a missing ETag merely skips the part record. -/
def chunkLoop (put : ℕ → Except String S3Response) (content : List ℕ)
    (ctype : String) (chunk_size : ℕ) :
    List String → ℕ → List PartRec → List PutReq → List PutReq × LoopRes
  | [], _, parts, trace => (trace, LoopRes.done parts)
  | url :: rest, i, parts, trace =>
    let chunk := chunkSlice content chunk_size i
    let trace' := trace ++ [⟨url, chunk, ctype⟩]
    match put i with
    | Except.error e =>
      (trace', LoopRes.failed ("Failed to upload chunk " ++ toString (i + 1) ++ ": " ++ e))
    | Except.ok resp =>
      if resp.ok = false then
        (trace', LoopRes.failed ("Failed to upload chunk " ++ toString (i + 1) ++ ": " ++ resp.text))
      else
        match resp.etag with
        | Option.some etag =>
          chunkLoop put content ctype chunk_size rest (i + 1)
            (parts ++ [⟨i + 1, etag⟩]) trace'
        | Option.none => chunkLoop put content ctype chunk_size rest (i + 1) parts trace'

/-- Result of `create_file`: the fields of the response the route reads. -/
structure CreateResult where
  file_id : PyVal
  upload_urls : List String
deriving Repr

/-- Outcome of the upload route, as far as the claims are concerned:
`raised` re-raises the `create_file` error, `jsonError` is an error JSON
response with its `client_code`, and `completed file_id parts` records that
`complete_upload` was invoked with exactly that parts list. -/
inductive UploadOutcome where
  | raised (e : String)
  | jsonError (msg : String) (client_code : ℕ)
  | completed (file_id : PyVal) (parts : List PartRec)
deriving Repr

/-- Embedding of the core of `upload_file` (src/app.py): create the file
record, fail fast on an empty URL list, run the chunk loop with the fixed
250 MiB chunk size, and on loop success call `complete_upload` with the
collected parts. Returns the PUT trace and the outcome. -/
def upload_file (create : Except String CreateResult)
    (put : ℕ → Except String S3Response) (content : List ℕ) (ctype : String) :
    List PutReq × UploadOutcome :=
  match create with
  | Except.error e => ([], UploadOutcome.raised e)
  | Except.ok cr =>
    if cr.upload_urls.isEmpty then
      ([], UploadOutcome.jsonError "No upload URLs received from API" 500)
    else
      match chunkLoop put content ctype (250 * 1024 * 1024) cr.upload_urls 0 [] [] with
      | (trace, LoopRes.failed msg) => (trace, UploadOutcome.jsonError msg 500)
      | (trace, LoopRes.done parts) => (trace, UploadOutcome.completed cr.file_id parts)

/-!
Request signer (src/vagon_api.py, `_generate_hmac_signature` and
`_generate_auth_header`).

HMAC-SHA256 is embedded concretely: bytes are `ℕ` below 256, 32-bit words
are `ℕ` with explicit `% 2^32`. The source draws `nonce` (uuid4) and
`timestamp` (current milliseconds) fresh per call; the model takes them as
parameters.
-/

/-- Lookup table for xor of two hex nibbles, packed into one number: the
nibble at hex position `i * 16 + j` is `i xor j`. `Nat.xor` itself is
defined by well-founded recursion, which the kernel cannot evaluate; a
table lookup by division keeps concrete signatures kernel-computable. -/
def nibXorTable : ℕ :=
  798974726605473726946832238011593618400339158202517049033210936078539962612148351302787556971974837864606271200763683943951953866025539096785282858647326000342156170857478456413950631519959977197563975844721619162716127815821009475742892049151496040916675244806998969647283770674449648040311876430683451920

/-- Lookup table for and of two hex nibbles, packed like `nibXorTable`. -/
def nibAndTable : ℕ :=
  178970338759626117045945469923199115041123260779314312955823344949224554980812360470510809807809702701637883939954407577907629966445417902446093750380464936022565822006406215950493527481162666895253123193110637699554657494007527742943332091038681025719385423560039599698382707429867121264243350444903560642560

/-- Xor of two nibbles via the packed table. -/
def nibXor (i j : ℕ) : ℕ := nibXorTable / 16 ^ (i * 16 + j) % 16

/-- And of two nibbles via the packed table. -/
def nibAnd (i j : ℕ) : ℕ := nibAndTable / 16 ^ (i * 16 + j) % 16

/-- Bitwise xor of two bytes. -/
def xor8 (a b : ℕ) : ℕ :=
  nibXor (a % 16) (b % 16) + nibXor (a / 16 % 16) (b / 16 % 16) * 16

/-- Bitwise xor of two 32-bit words, nibble by nibble. -/
def xor32 (a b : ℕ) : ℕ :=
  nibXor (a % 16) (b % 16) +
  nibXor (a / 16 % 16) (b / 16 % 16) * 16 +
  nibXor (a / 256 % 16) (b / 256 % 16) * 256 +
  nibXor (a / 4096 % 16) (b / 4096 % 16) * 4096 +
  nibXor (a / 65536 % 16) (b / 65536 % 16) * 65536 +
  nibXor (a / 1048576 % 16) (b / 1048576 % 16) * 1048576 +
  nibXor (a / 16777216 % 16) (b / 16777216 % 16) * 16777216 +
  nibXor (a / 268435456 % 16) (b / 268435456 % 16) * 268435456

/-- Bitwise and of two 32-bit words, nibble by nibble. -/
def and32 (a b : ℕ) : ℕ :=
  nibAnd (a % 16) (b % 16) +
  nibAnd (a / 16 % 16) (b / 16 % 16) * 16 +
  nibAnd (a / 256 % 16) (b / 256 % 16) * 256 +
  nibAnd (a / 4096 % 16) (b / 4096 % 16) * 4096 +
  nibAnd (a / 65536 % 16) (b / 65536 % 16) * 65536 +
  nibAnd (a / 1048576 % 16) (b / 1048576 % 16) * 1048576 +
  nibAnd (a / 16777216 % 16) (b / 16777216 % 16) * 16777216 +
  nibAnd (a / 268435456 % 16) (b / 268435456 % 16) * 268435456

/-- Rotate a 32-bit word right by `n` (0 < n < 32): the shifted-out low
bits re-enter at the top, and the two parts occupy disjoint bit ranges. -/
def rotr32 (x n : ℕ) : ℕ :=
  x / 2 ^ n + x % 2 ^ n * 2 ^ (32 - n)

/-- The 64 SHA-256 round constants, packed little-endian into one number
(word `t` is `shaKpacked / 2^(32*t) % 2^32`). -/
def shaKpacked : ℕ :=
  25051139735836467913601071899189108501681633092613316132753366958947502841281110980347811086624969305314199562795868290539880502533646505489797110349007385020507326982043050618112420254613810441709594605123090411975756494285771699200369901479195251226368983824020564277645963860728452821576845901498668417244438721537663670541944820957180957595559282976806173113161068298822071065329290006052849814285001949914564097058408480133985233335799884203712730341384999677089997083749077591931498939520449886954646413138343858395935213418018409268340744776361518554939863400075967197509182087778881547827184266701615699472280

/-- SHA-256 round constants as a word list. -/
def shaK : List ℕ :=
  (List.range 64).map (fun t => shaKpacked / 2 ^ (32 * t) % 4294967296)

/-- The eight SHA-256 initial hash words, packed like `shaKpacked`. -/
def shaH0packed : ℕ :=
  41557658498906279274860226408925318911382702236748615442085426012007055353447

/-- SHA-256 initial hash words as a list. -/
def shaH0 : List ℕ :=
  (List.range 8).map (fun t => shaH0packed / 2 ^ (32 * t) % 4294967296)

/-- The eight 32-bit working variables of the SHA-256 compression loop. -/
structure ShaState where
  a : ℕ
  b : ℕ
  c : ℕ
  d : ℕ
  e : ℕ
  f : ℕ
  g : ℕ
  h : ℕ
deriving Repr

/-- One SHA-256 compression round with round constant and schedule word
`kw = (w_t, k_t)`. -/
def shaRound (s : ShaState) (kw : ℕ × ℕ) : ShaState :=
  let s1 := xor32 (xor32 (rotr32 s.e 6) (rotr32 s.e 11)) (rotr32 s.e 25)
  let ch := xor32 (and32 s.e s.f) (and32 (4294967295 - s.e) s.g)
  let temp1 := (s.h + s1 + ch + kw.2 + kw.1) % 4294967296
  let s0 := xor32 (xor32 (rotr32 s.a 2) (rotr32 s.a 13)) (rotr32 s.a 22)
  let maj := xor32 (xor32 (and32 s.a s.b) (and32 s.a s.c)) (and32 s.b s.c)
  let temp2 := (s0 + maj) % 4294967296
  ⟨(temp1 + temp2) % 4294967296, s.a, s.b, s.c,
   (s.d + temp1) % 4294967296, s.e, s.f, s.g⟩

/-- Group a byte list into big-endian 32-bit words. -/
def wordsOfBytes : List ℕ → List ℕ
  | b0 :: b1 :: b2 :: b3 :: rest =>
    (((b0 * 256 + b1) * 256 + b2) * 256 + b3) :: wordsOfBytes rest
  | _ => []

/-- SHA-256 small sigma-0 (schedule extension). -/
def sSigma0 (x : ℕ) : ℕ := xor32 (xor32 (rotr32 x 7) (rotr32 x 18)) (x / 2 ^ 3)

/-- SHA-256 small sigma-1 (schedule extension). -/
def sSigma1 (x : ℕ) : ℕ := xor32 (xor32 (rotr32 x 17) (rotr32 x 19)) (x / 2 ^ 10)

/-- Extend the 16-word message schedule by `n` further words. -/
def extendSchedule (w : List ℕ) : ℕ → List ℕ
  | 0 => w
  | n + 1 =>
    let l := w.length
    let nw := (sSigma1 (w.getD (l - 2) 0) + w.getD (l - 7) 0 +
               sSigma0 (w.getD (l - 15) 0) + w.getD (l - 16) 0) % 4294967296
    extendSchedule (w ++ [nw]) n

/-- Big-endian byte serialization of `n` in `k` bytes. -/
def beBytes (k n : ℕ) : List ℕ :=
  (List.range k).map (fun i => n / 256 ^ (k - 1 - i) % 256)

/-- Compress one 64-byte block into the running hash words. -/
def sha256Compress (hs : List ℕ) (block : List ℕ) : List ℕ :=
  let w := extendSchedule (wordsOfBytes block) 48
  let s0 : ShaState := ⟨hs.getD 0 0, hs.getD 1 0, hs.getD 2 0, hs.getD 3 0,
                        hs.getD 4 0, hs.getD 5 0, hs.getD 6 0, hs.getD 7 0⟩
  let sf := (w.zip shaK).foldl shaRound s0
  [(s0.a + sf.a) % 4294967296, (s0.b + sf.b) % 4294967296,
   (s0.c + sf.c) % 4294967296, (s0.d + sf.d) % 4294967296,
   (s0.e + sf.e) % 4294967296, (s0.f + sf.f) % 4294967296,
   (s0.g + sf.g) % 4294967296, (s0.h + sf.h) % 4294967296]

/-- SHA-256 padding: `0x80`, zeros to 56 mod 64, then the 64-bit big-endian
bit length. -/
def sha256Pad (msg : List ℕ) : List ℕ :=
  msg ++ [128] ++ List.replicate ((119 - msg.length % 64) % 64) 0 ++
    beBytes 8 (msg.length * 8)

/-- Split a byte list into 64-byte blocks; the fuel (one step per block)
keeps the recursion structural so the kernel can evaluate it. -/
def toBlocksF : ℕ → List ℕ → List (List ℕ)
  | 0, _ => []
  | fuel + 1, l => if l.isEmpty then [] else l.take 64 :: toBlocksF fuel (l.drop 64)

/-- Split a padded message into 64-byte blocks. -/
def toBlocks (l : List ℕ) : List (List ℕ) :=
  toBlocksF (l.length / 64 + 1) l

/-- SHA-256 of a byte list, as 32 bytes. -/
def sha256 (msg : List ℕ) : List ℕ :=
  (((toBlocks (sha256Pad msg)).foldl sha256Compress shaH0).map (beBytes 4)).flatten

/-- HMAC-SHA256 (RFC 2104) with block size 64: the key is zero-padded (or
hashed first when longer than 64 bytes), xored with the inner/outer pads. -/
def hmacSha256 (key msg : List ℕ) : List ℕ :=
  let k0 := if 64 < key.length then sha256 key else key
  let kp := k0 ++ List.replicate (64 - k0.length) 0
  sha256 ((kp.map (fun b => xor8 b 92)) ++ sha256 ((kp.map (fun b => xor8 b 54)) ++ msg))

/-- UTF-8 encoding of one Unicode code point. -/
def utf8Bytes (c : ℕ) : List ℕ :=
  if c < 128 then [c]
  else if c < 2048 then [192 + c / 64, 128 + c % 64]
  else if c < 65536 then [224 + c / 4096, 128 + c / 64 % 64, 128 + c % 64]
  else [240 + c / 262144, 128 + c / 4096 % 64, 128 + c / 64 % 64, 128 + c % 64]

/-- Python `s.encode('utf-8')`. -/
def strBytes (s : String) : List ℕ :=
  (s.data.map (fun c => utf8Bytes c.toNat)).flatten

/-- Lowercase hex digit for `n % 16`. -/
def hexChar (n : ℕ) : Char :=
  "0123456789abcdef".data.getD (n % 16) '0'

/-- Lowercase hex encoding of a byte list (Python `.hexdigest()`). -/
def hexLower (bytes : List ℕ) : String :=
  ⟨(bytes.map (fun b => [hexChar (b / 16), hexChar b])).flatten⟩

/-- The `signature_string` variable of `_generate_hmac_signature`
(src/vagon_api.py): the f-string concatenation
`api_key + method + path + timestamp + nonce + body`. -/
def signature_string (api_key method path timestamp nonce body : String) : String :=
  api_key ++ method ++ path ++ timestamp ++ nonce ++ body

/-- Embedding of `_generate_hmac_signature` (src/vagon_api.py): lowercase
hex of HMAC-SHA256 keyed by the secret over `signature_string`. -/
def generate_hmac_signature (api_key api_secret method path timestamp nonce body : String) : String :=
  hexLower (hmacSha256 (strBytes api_secret)
    (strBytes (signature_string api_key method path timestamp nonce body)))

/-- Embedding of `_generate_auth_header` (src/vagon_api.py), with the
internally drawn `nonce` and `timestamp` as parameters. -/
def generate_auth_header (api_key api_secret method path timestamp nonce body : String) : String :=
  "HMAC " ++ api_key ++ ":" ++
    generate_hmac_signature api_key api_secret method path timestamp nonce body ++
    ":" ++ nonce ++ ":" ++ timestamp

set_option maxRecDepth 100000
set_option maxHeartbeats 4000000


/-!
Error-response handling (src/vagon_api.py, `_parse_error_response` and the
`VagonAPIError` raise in `_request`).

An HTTP response is modelled by its status code, its text, and the result
of `response.json()`: `Option.some v` when the body parses,
`Option.none` when `json.JSONDecodeError` is raised. The `except KeyError`
branch of the source is dead code (`dict.get` never raises `KeyError`).
-/

/-- Whitespace for Python `str.strip()`: the characters for which
`str.isspace()` is true — the ASCII whitespace and separator controls plus
the Unicode space characters (NEL, NBSP, Ogham space, the Zs spaces, line
and paragraph separators, narrow NBSP, medium mathematical space,
ideographic space). -/
def pyIsSpace (c : Char) : Bool :=
  ([9, 10, 11, 12, 13, 28, 29, 30, 31, 32, 133, 160, 5760, 8192, 8193,
    8194, 8195, 8196, 8197, 8198, 8199, 8200, 8201, 8202, 8232, 8233,
    8239, 8287, 12288] : List ℕ).contains c.toNat

/-- Python `s.strip()`: remove leading and trailing whitespace. -/
def pyStrip (s : String) : String :=
  ⟨((s.data.dropWhile pyIsSpace).reverse.dropWhile pyIsSpace).reverse⟩

/-- An HTTP error response as `_parse_error_response` sees it. -/
structure ApiResponse where
  status_code : ℕ
  text : String
  jsonBody : Option PyVal
deriving Repr

/-- The `VagonAPIError` raised by `_request` for a non-ok response. -/
structure VagonAPIError where
  status_code : ℕ
  message : PyVal
  client_code : PyVal
deriving Repr

/-- Embedding of `_parse_error_response` (src/vagon_api.py): on a parsed
JSON object take `message` (falling back to `error`, then
"Unknown error") and `client_code` (falling back to the HTTP status);
on `JSONDecodeError` use the stripped text, or a synthesized
"HTTP <status> - No response body" when that is empty. A parsed body that
is not an object makes `.get` raise `AttributeError`, which nothing
catches. -/
def parse_error_response (r : ApiResponse) : Except String (PyVal × PyVal) :=
  match r.jsonBody with
  | Option.some (PyVal.obj d) =>
    Except.ok (dictGetD d "message" (dictGetD d "error" (PyVal.str "Unknown error")),
               dictGetD d "client_code" (PyVal.int r.status_code))
  | Option.some _ => Except.error "AttributeError: error body is not an object"
  | Option.none =>
    let stripped := if r.text = "" then "" else pyStrip r.text
    let etext := if stripped = "" then
        "HTTP " ++ toString r.status_code ++ " - No response body"
      else stripped
    Except.ok (PyVal.str etext, PyVal.int r.status_code)

/-- The raise in `_request`: `VagonAPIError(response.status_code,
error_message, client_code)` built from `_parse_error_response`.
`VagonAPIError.__init__` stores `client_code or status_code`, coercing a
falsy client_code to the HTTP status. -/
def surfaceError (r : ApiResponse) : Except String VagonAPIError :=
  match parse_error_response r with
  | Except.error e => Except.error e
  | Except.ok (m, c) =>
    Except.ok ⟨r.status_code, m,
      if pyTruthy c then c else PyVal.int r.status_code⟩

/-!
Theorems. Helper lemmas come first, then one theorem per claim (with
witness or counterexample theorems where called for).
-/

example : format_bytes 128 = "128.00 B" := by decide
example : format_bytes (1024 ^ 5 * 3) = "3.00 PB" := by decide

/-!
Known-answer tests for the embedded hash: SHA-256 of "abc" (FIPS 180-2
appendix B.1) and HMAC-SHA256 of RFC 2202-style key/data.
-/

example : hexLower (sha256 (strBytes "abc")) =
    "ba7816bf8f01cfea414140de5dae2223b00361a396177a9cb410ff61f20015ad" := by decide
example : hexLower (hmacSha256 (strBytes "key")
    (strBytes "The quick brown fox jumps over the lazy dog")) =
    "f7bc83f430538424b13298e6aa6fb143ef4d59a14946175997479dbc2d1a3cd8" := by decide

lemma fbLoop_stop (num k : ℕ) (u : String) (rest : List String)
    (h : num < 1024 ^ (k + 1)) :
    fbLoop num k (u :: rest) = fmtTwoDecAt num k ++ " " ++ u := by
  simp [fbLoop, h]

lemma fbLoop_go (num k : ℕ) (u : String) (rest : List String)
    (h : ¬ num < 1024 ^ (k + 1)) :
    fbLoop num k (u :: rest) = fbLoop num (k + 1) rest := by
  simp [fbLoop, h]

lemma roundFloat_small (n : ℕ) (h : n < 2 ^ 53) : roundFloat n = n := by
  unfold roundFloat
  rw [if_pos h]

lemma halfEvenDiv_ge (a b : ℕ) : a / b ≤ halfEvenDiv a b := by
  show a / b ≤ if 2 * (a % b) < b then a / b
    else if b < 2 * (a % b) then a / b + 1
    else if a / b % 2 = 0 then a / b else a / b + 1
  split_ifs <;> omega

lemma roundFloat_ge (n : ℕ) (h : 1024 ^ 5 ≤ n) : 1024 ^ 5 ≤ roundFloat n := by
  unfold roundFloat
  split_ifs with hs
  · exact h
  · push_neg at hs
    have hn0 : n ≠ 0 := by
      intro h0
      rw [h0] at hs
      exact absurd hs (by norm_num)
    have hlog : 53 ≤ Nat.log2 n := (Nat.le_log2 hn0).mpr hs
    have hse : Nat.log2 n = (Nat.log2 n - 52) + 52 := by omega
    have hpow : 2 ^ (Nat.log2 n - 52) * 2 ^ 52 ≤ n := by
      have h1 : 2 ^ Nat.log2 n ≤ n := Nat.log2_self_le hn0
      rw [hse, pow_add] at h1
      exact h1
    have hdiv : 2 ^ 52 ≤ n / 2 ^ (Nat.log2 n - 52) := by
      rw [Nat.le_div_iff_mul_le (by positivity)]
      rw [mul_comm] at hpow
      exact hpow
    calc 1024 ^ 5 ≤ 2 ^ 52 := by norm_num
      _ ≤ n / 2 ^ (Nat.log2 n - 52) := hdiv
      _ ≤ n / 2 ^ (Nat.log2 n - 52) * 2 ^ (Nat.log2 n - 52) :=
          Nat.le_mul_of_pos_right _ (by positivity)
      _ ≤ halfEvenDiv n (2 ^ (Nat.log2 n - 52)) * 2 ^ (Nat.log2 n - 52) :=
          Nat.mul_le_mul_right _ (halfEvenDiv_ge _ _)

lemma string_append_assoc (a b c : String) : a ++ b ++ c = a ++ (b ++ c) := by
  cases a with
  | mk da =>
    cases b with
    | mk db =>
      cases c with
      | mk dc =>
        show String.mk (da ++ db ++ dc) = String.mk (da ++ (db ++ dc))
        rw [List.append_assoc]

/-- C9: `format_bytes` maps 0 to "0.00 B", 1536 to "1.50 KB" and `1024^3`
to "1.00 GB"; in general it steps through the units B, KB, MB, GB, TB
dividing by 1024, formats the value with two decimals at the first unit
under which it is below 1024, and falls through to PB otherwise. Sizes at
or above `1024^5` reach PB carrying the value of the first float division,
which rounds the integer to 53 significant bits (`roundFloat`); below
`2^53` — in particular throughout the B..TB range, whose thresholds stay
under `2^50` — the float is exact and the formatted value is the exact
rational `size / 1024^k`. The PB clause is stated below the double
overflow threshold, where the Python floats are defined. -/
theorem format_bytes_spec (size k : ℕ) :
    format_bytes 0 = "0.00 B" ∧
    format_bytes 1536 = "1.50 KB" ∧
    format_bytes (1024 ^ 3) = "1.00 GB" ∧
    (k < 5 → (∀ j, j < k → 1024 ^ (j + 1) ≤ size) → size < 1024 ^ (k + 1) →
      format_bytes size =
        fmtTwoDecAt size k ++ " " ++ ["B", "KB", "MB", "GB", "TB"].getD k "") ∧
    (1024 ^ 5 ≤ size → size < 2 ^ 1023 →
      format_bytes size = fmtTwoDecAt (roundFloat size) 5 ++ " PB") := by
  refine ⟨by decide, by decide, by decide, ?_, ?_⟩
  · intro hk hlow hhi
    interval_cases k
    · rw [format_bytes, if_pos (by simpa using hhi), string_append_assoc]
      rfl
    · have hb : 1024 ≤ size := by simpa using hlow 0 (by norm_num)
      rw [format_bytes, if_neg (Nat.not_lt.mpr hb),
        roundFloat_small size (lt_trans hhi (by norm_num)),
        fbLoop_stop _ _ _ _ hhi]
      rfl
    · have hb : 1024 ≤ size := by simpa using hlow 0 (by norm_num)
      rw [format_bytes, if_neg (Nat.not_lt.mpr hb),
        roundFloat_small size (lt_trans hhi (by norm_num)),
        fbLoop_go _ _ _ _ (Nat.not_lt.mpr (hlow 1 (by norm_num))),
        fbLoop_stop _ _ _ _ hhi]
      rfl
    · have hb : 1024 ≤ size := by simpa using hlow 0 (by norm_num)
      rw [format_bytes, if_neg (Nat.not_lt.mpr hb),
        roundFloat_small size (lt_trans hhi (by norm_num)),
        fbLoop_go _ _ _ _ (Nat.not_lt.mpr (hlow 1 (by norm_num))),
        fbLoop_go _ _ _ _ (Nat.not_lt.mpr (hlow 2 (by norm_num))),
        fbLoop_stop _ _ _ _ hhi]
      rfl
    · have hb : 1024 ≤ size := by simpa using hlow 0 (by norm_num)
      rw [format_bytes, if_neg (Nat.not_lt.mpr hb),
        roundFloat_small size (lt_trans hhi (by norm_num)),
        fbLoop_go _ _ _ _ (Nat.not_lt.mpr (hlow 1 (by norm_num))),
        fbLoop_go _ _ _ _ (Nat.not_lt.mpr (hlow 2 (by norm_num))),
        fbLoop_go _ _ _ _ (Nat.not_lt.mpr (hlow 3 (by norm_num))),
        fbLoop_stop _ _ _ _ hhi]
      rfl
  · intro h5 hovf
    have hb : 1024 ≤ size := le_trans (by norm_num) h5
    have hrf : 1024 ^ 5 ≤ roundFloat size := roundFloat_ge size h5
    have g : ∀ j, j ≤ 4 → ¬ roundFloat size < 1024 ^ (j + 1) := by
      intro j hj
      exact Nat.not_lt.mpr (le_trans (Nat.pow_le_pow_right (by norm_num) (by omega)) hrf)
    rw [format_bytes, if_neg (Nat.not_lt.mpr hb),
      fbLoop_go _ _ _ _ (g 1 (by norm_num)), fbLoop_go _ _ _ _ (g 2 (by norm_num)),
      fbLoop_go _ _ _ _ (g 3 (by norm_num)), fbLoop_go _ _ _ _ (g 4 (by norm_num))]
    rfl

/-- Witness for `format_bytes_spec` at size 1536 in unit KB. -/
theorem format_bytes_spec_witness :
    format_bytes 1536 = fmtTwoDecAt 1536 1 ++ " " ++ ["B", "KB", "MB", "GB", "TB"].getD 1 "" :=
  (format_bytes_spec 1536 1).2.2.2.1 (by decide) (by decide) (by decide)

lemma hexChar_mem_digits (n : ℕ) :
    "0123456789abcdef".data.contains (hexChar n) = true := by
  have hall : ∀ m, m < 16 →
      "0123456789abcdef".data.getD m '0' ∈ "0123456789abcdef".data := by decide
  exact List.elem_eq_true_of_mem (hall (n % 16) (Nat.mod_lt _ (by norm_num)))

lemma hexLower_cons (b : ℕ) (rest : List ℕ) :
    (hexLower (b :: rest)).data = hexChar (b / 16) :: hexChar b :: (hexLower rest).data :=
  rfl

lemma hexLower_lowercase (bytes : List ℕ) :
    ((hexLower bytes).data.all (fun c => "0123456789abcdef".data.contains c)) = true := by
  induction bytes with
  | nil => rfl
  | cons b rest ih =>
    rw [hexLower_cons]
    simp only [List.all_cons, ih, Bool.and_true]
    rw [Bool.and_eq_true]
    exact ⟨hexChar_mem_digits _, hexChar_mem_digits _⟩

/-- C4: the produced Authorization header is exactly
`"HMAC " + api_key + ":" + signature + ":" + nonce + ":" + timestamp`, the
signature is HMAC-SHA256 keyed by the secret over the exact concatenation
`api_key + method + path + timestamp + nonce + body`, and the hex encoding
uses only the lowercase digits `0-9a-f`. -/
theorem auth_header_spec (api_key api_secret method path timestamp nonce body : String) :
    generate_auth_header api_key api_secret method path timestamp nonce body =
      "HMAC " ++ api_key ++ ":" ++
        generate_hmac_signature api_key api_secret method path timestamp nonce body ++
        ":" ++ nonce ++ ":" ++ timestamp ∧
    generate_hmac_signature api_key api_secret method path timestamp nonce body =
      hexLower (hmacSha256 (strBytes api_secret)
        (strBytes (api_key ++ method ++ path ++ timestamp ++ nonce ++ body))) ∧
    ((generate_hmac_signature api_key api_secret method path timestamp nonce body).data.all
      (fun c => "0123456789abcdef".data.contains c)) = true :=
  ⟨rfl, rfl, hexLower_lowercase _⟩

lemma sigstr_method_inj {k m m2 p ts n b : String}
    (h : signature_string k m p ts n b = signature_string k m2 p ts n b) : m = m2 := by
  have hd := congrArg String.data h
  simp only [signature_string, String.data_append, List.append_assoc] at hd
  exact congrArg String.mk (List.append_cancel_right (List.append_cancel_left hd))

lemma sigstr_path_inj {k m p p2 ts n b : String}
    (h : signature_string k m p ts n b = signature_string k m p2 ts n b) : p = p2 := by
  have hd := congrArg String.data h
  simp only [signature_string, String.data_append, List.append_assoc] at hd
  exact congrArg String.mk
    (List.append_cancel_right (List.append_cancel_left (List.append_cancel_left hd)))

lemma sigstr_body_inj {k m p ts n b b2 : String}
    (h : signature_string k m p ts n b = signature_string k m p ts n b2) : b = b2 := by
  have hd := congrArg String.data h
  simp only [signature_string, String.data_append, List.append_assoc] at hd
  exact congrArg String.mk
    (List.append_cancel_left (List.append_cancel_left (List.append_cancel_left
      (List.append_cancel_left (List.append_cancel_left hd)))))

/-- C8 (amended): changing exactly one of method, path or body (the other
fields fixed) changes the canonical signing string fed to the MAC, so the
MAC is computed over a different message; changing the api_secret alone
does not in general change the signature (see the counterexample). -/
theorem signature_sensitivity (api_key method path timestamp nonce body m2 p2 b2 : String) :
    (method ≠ m2 →
      signature_string api_key method path timestamp nonce body ≠
        signature_string api_key m2 path timestamp nonce body) ∧
    (path ≠ p2 →
      signature_string api_key method path timestamp nonce body ≠
        signature_string api_key method p2 timestamp nonce body) ∧
    (body ≠ b2 →
      signature_string api_key method path timestamp nonce body ≠
        signature_string api_key method path timestamp nonce b2) ∧
    generate_hmac_signature api_key "s" method path timestamp nonce body =
      hexLower (hmacSha256 (strBytes "s")
        (strBytes (signature_string api_key method path timestamp nonce body))) :=
  ⟨fun hne h => hne (sigstr_method_inj h),
   fun hne h => hne (sigstr_path_inj h),
   fun hne h => hne (sigstr_body_inj h),
   rfl⟩

/-- Witness for `signature_sensitivity`: a concrete method change changes
the canonical signing string. -/
theorem signature_sensitivity_witness :
    signature_string "k" "GET" "/p" "1" "n" "" ≠ signature_string "k" "POST" "/p" "1" "n" "" :=
  (signature_sensitivity "k" "GET" "/p" "1" "n" "" "POST" "/q" "x").1 (by decide)

lemma hmacSha256_key_pad (k1 k2 msg : List ℕ) (h1 : ¬ 64 < k1.length)
    (h2 : ¬ 64 < k2.length)
    (h : k1 ++ List.replicate (64 - k1.length) 0 = k2 ++ List.replicate (64 - k2.length) 0) :
    hmacSha256 k1 msg = hmacSha256 k2 msg := by
  simp only [hmacSha256]
  rw [if_neg h1, if_neg h2, h]

/-- C8 counterexample: the secrets "A" and "A\x00" differ, yet every
signature they produce is identical — HMAC zero-pads the key to its
64-byte block, and the two keys agree after padding. Changing only
api_secret therefore need not change the signature. -/
theorem secret_change_collision :
    ("A" : String) ≠ "A\x00" ∧
    generate_hmac_signature "k" "A" "GET" "/p" "1" "n" "" =
      generate_hmac_signature "k" "A\x00" "GET" "/p" "1" "n" "" := by
  constructor
  · decide
  · have hA : strBytes "A" = [65] := by decide
    have hA0 : strBytes "A\x00" = [65, 0] := by decide
    unfold generate_hmac_signature
    rw [hA, hA0]
    exact congrArg hexLower
      (hmacSha256_key_pad [65] [65, 0] _ (by decide) (by decide) (by decide))

lemma chunkLoop_fail (put : ℕ → Except String S3Response) (content : List ℕ)
    (ctype : String) (csize : ℕ) (urls : List String) :
    ∀ (i : ℕ) (parts : List PartRec) (trace : List PutReq) (f : ℕ) (tail : String),
    f < urls.length →
    (∀ j, j < f → ∃ r, put (i + j) = Except.ok r ∧ r.ok = true) →
    ((∃ e, put (i + f) = Except.error e ∧ tail = e) ∨
     (∃ r, put (i + f) = Except.ok r ∧ r.ok = false ∧ tail = r.text)) →
    chunkLoop put content ctype csize urls i parts trace =
      (trace ++ (List.range (f + 1)).map
        (fun j => ⟨urls.getD j "", chunkSlice content csize (i + j), ctype⟩),
       LoopRes.failed ("Failed to upload chunk " ++ toString (i + f + 1) ++ ": " ++ tail)) := by
  induction urls with
  | nil => intro i parts trace f tail hf _ _; simp at hf
  | cons url rest ih =>
    intro i parts trace f tail hf hok hfail
    match f with
    | 0 =>
      rcases hfail with ⟨e, hpe, rfl⟩ | ⟨r, hpr, hrok, rfl⟩
      · rw [Nat.add_zero] at hpe
        rw [show List.range 1 = [0] from rfl]
        simp [chunkLoop, hpe]
      · rw [Nat.add_zero] at hpr
        rw [show List.range 1 = [0] from rfl]
        simp [chunkLoop, hpr, hrok]
    | Nat.succ m =>
      obtain ⟨r0, hp0, hr0⟩ := hok 0 (Nat.succ_pos m)
      rw [Nat.add_zero] at hp0
      have hf' : m < rest.length := by simpa using Nat.lt_of_succ_lt_succ (by simpa using hf)
      have hok' : ∀ j, j < m → ∃ r, put (i + 1 + j) = Except.ok r ∧ r.ok = true := by
        intro j hj
        have hj1 : i + (j + 1) = i + 1 + j := by omega
        obtain ⟨r, hr⟩ := hok (j + 1) (by omega)
        exact ⟨r, by rwa [hj1] at hr⟩
      have hfail' :
          (∃ e, put (i + 1 + m) = Except.error e ∧ tail = e) ∨
          (∃ r, put (i + 1 + m) = Except.ok r ∧ r.ok = false ∧ tail = r.text) := by
        have hm1 : i + (m + 1) = i + 1 + m := by omega
        rcases hfail with ⟨e, he, ht⟩ | ⟨r, hr, hrf, ht⟩
        · exact Or.inl ⟨e, by rwa [hm1] at he, ht⟩
        · exact Or.inr ⟨r, by rwa [hm1] at hr, hrf, ht⟩
      have harith : i + (m + 1) + 1 = i + 1 + m + 1 := by omega
      have hlist : ∀ tr : List PutReq,
          (tr ++ [(⟨url, chunkSlice content csize i, ctype⟩ : PutReq)]) ++
            (List.range (m + 1)).map
              (fun j => (⟨rest.getD j "", chunkSlice content csize (i + 1 + j), ctype⟩ : PutReq)) =
          tr ++ (List.range (m + 1 + 1)).map
            (fun j => (⟨(url :: rest).getD j "", chunkSlice content csize (i + j), ctype⟩ : PutReq)) := by
        intro tr
        rw [List.append_assoc]
        congr 1
        conv_rhs => rw [List.range_succ_eq_map]
        rw [List.map_cons, List.map_map, List.singleton_append]
        congr 1
        simp
        intro a _
        have h2 : i + 1 + a = i + (a + 1) := by omega
        rw [h2]
      rcases hetag : r0.etag with _ | t
      · rw [show chunkLoop put content ctype csize (url :: rest) i parts trace =
            chunkLoop put content ctype csize rest (i + 1) parts
              (trace ++ [⟨url, chunkSlice content csize i, ctype⟩]) by
          simp [chunkLoop, hp0, hr0, hetag]]
        rw [ih (i + 1) parts _ m tail hf' hok' hfail', harith, hlist]
      · rw [show chunkLoop put content ctype csize (url :: rest) i parts trace =
            chunkLoop put content ctype csize rest (i + 1) (parts ++ [⟨i + 1, t⟩])
              (trace ++ [⟨url, chunkSlice content csize i, ctype⟩]) by
          simp [chunkLoop, hp0, hr0, hetag]]
        rw [ih (i + 1) _ _ m tail hf' hok' hfail', harith, hlist]

lemma chunkLoop_ok (put : ℕ → Except String S3Response) (content : List ℕ)
    (ctype : String) (csize : ℕ) (urls : List String) :
    ∀ (i : ℕ) (parts : List PartRec) (trace : List PutReq),
    (∀ j, j < urls.length → ∃ r, put (i + j) = Except.ok r ∧ r.ok = true) →
    chunkLoop put content ctype csize urls i parts trace =
      (trace ++ (List.range urls.length).map
         (fun j => ⟨urls.getD j "", chunkSlice content csize (i + j), ctype⟩),
       LoopRes.done (parts ++ (List.range urls.length).filterMap
         (fun j => match put (i + j) with
                   | Except.ok r => r.etag.map (fun t => (⟨i + j + 1, t⟩ : PartRec))
                   | Except.error _ => Option.none))) := by
  induction urls with
  | nil => intro i parts trace _; simp [chunkLoop]
  | cons url rest ih =>
    intro i parts trace hok
    obtain ⟨r0, hp0, hr0⟩ := hok 0 (Nat.succ_pos rest.length)
    rw [Nat.add_zero] at hp0
    have hok' : ∀ j, j < rest.length → ∃ r, put (i + 1 + j) = Except.ok r ∧ r.ok = true := by
      intro j hj
      have hj1 : i + (j + 1) = i + 1 + j := by omega
      obtain ⟨r, hr⟩ := hok (j + 1) (by simpa using Nat.succ_lt_succ hj)
      exact ⟨r, by rwa [hj1] at hr⟩
    have htr : ∀ tr : List PutReq,
        (tr ++ [(⟨url, chunkSlice content csize i, ctype⟩ : PutReq)]) ++
          (List.range rest.length).map
            (fun j => (⟨rest.getD j "", chunkSlice content csize (i + 1 + j), ctype⟩ : PutReq)) =
        tr ++ (List.range (rest.length + 1)).map
          (fun j => (⟨(url :: rest).getD j "", chunkSlice content csize (i + j), ctype⟩ : PutReq)) := by
      intro tr
      rw [List.append_assoc]
      congr 1
      conv_rhs => rw [List.range_succ_eq_map]
      rw [List.map_cons, List.map_map, List.singleton_append]
      congr 1
      simp
      intro a _
      have h2 : i + 1 + a = i + (a + 1) := by omega
      rw [h2]
    have hparts : ∀ (hd : List PartRec),
        (List.range (rest.length + 1)).filterMap
          (fun j => match put (i + j) with
                    | Except.ok r => r.etag.map (fun t => (⟨i + j + 1, t⟩ : PartRec))
                    | Except.error _ => Option.none) =
        (match put i with
         | Except.ok r => r.etag.map (fun t => (⟨i + 1, t⟩ : PartRec))
         | Except.error _ => Option.none).toList ++
        (List.range rest.length).filterMap
          (fun j => match put (i + 1 + j) with
                    | Except.ok r => r.etag.map (fun t => (⟨i + 1 + j + 1, t⟩ : PartRec))
                    | Except.error _ => Option.none) := by
      intro _
      rw [List.range_succ_eq_map, List.filterMap_cons, List.filterMap_map]
      rcases hp : put i with e | r
      · simp only [Nat.add_zero, hp, Option.toList_none, List.nil_append]
        apply List.filterMap_congr
        intro j _
        have h2 : i + (j + 1) = i + 1 + j := by omega
        simp [Function.comp, Nat.succ_eq_add_one, h2]
      · rcases het : r.etag with _ | t
        · simp only [Nat.add_zero, hp, het, Option.map_none', Option.toList_none,
            List.nil_append]
          apply List.filterMap_congr
          intro j _
          have h2 : i + (j + 1) = i + 1 + j := by omega
          simp [Function.comp, Nat.succ_eq_add_one, h2]
        · simp only [Nat.add_zero, hp, het, Option.map_some', Option.toList_some,
            List.singleton_append]
          congr 1
          apply List.filterMap_congr
          intro j _
          have h2 : i + (j + 1) = i + 1 + j := by omega
          simp [Function.comp, Nat.succ_eq_add_one, h2]
    rcases hetag : r0.etag with _ | t
    · rw [show chunkLoop put content ctype csize (url :: rest) i parts trace =
          chunkLoop put content ctype csize rest (i + 1) parts
            (trace ++ [⟨url, chunkSlice content csize i, ctype⟩]) by
        simp [chunkLoop, hp0, hr0, hetag]]
      rw [ih (i + 1) parts _ hok', htr]
      simp only [List.length_cons]
      rw [hparts []]
      simp [hp0, hetag, List.append_assoc]
    · rw [show chunkLoop put content ctype csize (url :: rest) i parts trace =
          chunkLoop put content ctype csize rest (i + 1) (parts ++ [⟨i + 1, t⟩])
            (trace ++ [⟨url, chunkSlice content csize i, ctype⟩]) by
        simp [chunkLoop, hp0, hr0, hetag]]
      rw [ih (i + 1) _ _ hok', htr]
      simp only [List.length_cons]
      rw [hparts []]
      simp [hp0, hetag, List.append_assoc]

lemma upload_file_loop (fid : PyVal) (urls : List String)
    (put : ℕ → Except String S3Response) (content : List ℕ) (ctype : String)
    (h : urls.isEmpty = false) :
    upload_file (Except.ok ⟨fid, urls⟩) put content ctype =
      (match chunkLoop put content ctype (250 * 1024 * 1024) urls 0 [] [] with
       | (trace, LoopRes.failed msg) => (trace, UploadOutcome.jsonError msg 500)
       | (trace, LoopRes.done parts) => (trace, UploadOutcome.completed fid parts)) := by
  simp [upload_file, h]

lemma chunkSlice_python (l : List ℕ) (cs i : ℕ) :
    chunkSlice l cs i = (l.take (min ((i + 1) * cs) l.length)).drop (i * cs) := by
  unfold chunkSlice
  rw [List.drop_take, List.take_eq_take, List.length_drop]
  have hx : (i + 1) * cs = i * cs + cs := by ring
  rw [hx]
  generalize i * cs = a
  rcases Nat.le_total (a + cs) l.length with h | h
  · rw [min_eq_left h, show a + cs - a = cs from by omega]
  · rw [min_eq_right h, min_self, min_eq_right (by omega)]

lemma urls_isEmpty_false {urls : List String} (h : urls ≠ []) : urls.isEmpty = false := by
  cases urls with
  | nil => exact absurd rfl h
  | cons a l => rfl

/-- C2: with every chunk PUT answered successfully (with an ETag), the
upload issues one PUT per URL, in index order, where chunk `i` carries the
slice `content[i*chunk_size : min((i+1)*chunk_size, len)]` and is recorded
as part number `i + 1`; with 600 content bytes and chunk size 250 the loop
issues exactly 3 PUTs of sizes 250, 250, 100 with part numbers 1, 2, 3. -/
theorem upload_transfer_spec (urls : List String) (put : ℕ → Except String S3Response)
    (content : List ℕ) (ctype : String) (fid : PyVal) (r : ℕ → S3Response) (et : ℕ → String) :
    (urls ≠ [] →
      (∀ j, j < urls.length →
        put j = Except.ok (r j) ∧ (r j).ok = true ∧ (r j).etag = Option.some (et j)) →
      upload_file (Except.ok ⟨fid, urls⟩) put content ctype =
        ((List.range urls.length).map
           (fun j => ⟨urls.getD j "", chunkSlice content (250 * 1024 * 1024) j, ctype⟩),
         UploadOutcome.completed fid
           ((List.range urls.length).map (fun j => ⟨j + 1, et j⟩)))) ∧
    (∀ i, chunkSlice content (250 * 1024 * 1024) i =
      (content.take (min ((i + 1) * (250 * 1024 * 1024)) content.length)).drop
        (i * (250 * 1024 * 1024))) ∧
    ((chunkLoop (fun _ => Except.ok ⟨true, "", Option.some "e"⟩) (List.replicate 600 0) "t" 250
        ["u", "v", "w"] 0 [] []).1.map (fun q => q.data.length) = [250, 250, 100]) ∧
    ((chunkLoop (fun _ => Except.ok ⟨true, "", Option.some "e"⟩) (List.replicate 600 0) "t" 250
        ["u", "v", "w"] 0 [] []).2 =
      LoopRes.done [⟨1, "e"⟩, ⟨2, "e"⟩, ⟨3, "e"⟩]) := by
  refine ⟨?_, fun i => chunkSlice_python content _ i, by decide, by rfl⟩
  intro hne hall
  rw [upload_file_loop fid urls put content ctype (urls_isEmpty_false hne)]
  rw [chunkLoop_ok put content ctype (250 * 1024 * 1024) urls 0 [] []
    (fun j hj => ⟨r j, by simpa using (hall j hj).1, (hall j hj).2.1⟩)]
  simp only [List.nil_append, Nat.zero_add]
  have hfm : (List.range urls.length).filterMap
      (fun j => match put j with
                | Except.ok rr => rr.etag.map (fun t => (⟨j + 1, t⟩ : PartRec))
                | Except.error _ => Option.none) =
      (List.range urls.length).map (fun j => (⟨j + 1, et j⟩ : PartRec)) := by
    rw [List.filterMap_congr (g := fun j => Option.some (⟨j + 1, et j⟩ : PartRec)) ?_]
    · rw [show (fun j => Option.some (⟨j + 1, et j⟩ : PartRec)) =
          Option.some ∘ (fun j => (⟨j + 1, et j⟩ : PartRec)) from rfl, List.filterMap_eq_map]
    · intro j hj
      have hj' := List.mem_range.mp hj
      simp [(hall j hj').1, (hall j hj').2.2]
  rw [hfm]

/-- Witness for `upload_transfer_spec`: one URL, one successful chunk. -/
theorem upload_transfer_spec_witness :
    upload_file (Except.ok ⟨PyVal.int 1, ["u"]⟩)
        (fun _ => Except.ok ⟨true, "", Option.some "e"⟩) [] "t" =
      ((List.range (["u"] : List String).length).map
         (fun j => ⟨(["u"] : List String).getD j "", chunkSlice [] (250 * 1024 * 1024) j, "t"⟩),
       UploadOutcome.completed (PyVal.int 1)
         ((List.range (["u"] : List String).length).map (fun j => ⟨j + 1, "e"⟩))) :=
  (upload_transfer_spec ["u"] _ [] "t" (PyVal.int 1)
      (fun _ => ⟨true, "", Option.some "e"⟩) (fun _ => "e")).1
    (by simp) (fun j _ => ⟨rfl, rfl, rfl⟩)

/-- C3: when the first chunk succeeds and the transport call for the second
chunk raises, the route returns the terminal error naming chunk 2,
`complete_upload` is never reached, and only two PUTs were issued. -/
theorem upload_second_chunk_failure (urls : List String) (put : ℕ → Except String S3Response)
    (content : List ℕ) (ctype : String) (fid : PyVal) (r0 : S3Response) (e : String) :
    2 ≤ urls.length →
    put 0 = Except.ok r0 → r0.ok = true →
    put 1 = Except.error e →
    (upload_file (Except.ok ⟨fid, urls⟩) put content ctype).2 =
        UploadOutcome.jsonError ("Failed to upload chunk 2: " ++ e) 500 ∧
    (∀ f2 parts, (upload_file (Except.ok ⟨fid, urls⟩) put content ctype).2 ≠
        UploadOutcome.completed f2 parts) ∧
    (upload_file (Except.ok ⟨fid, urls⟩) put content ctype).1.length = 2 := by
  intro hlen hp0 hr0 hp1
  have hne : urls ≠ [] := by intro h; rw [h] at hlen; simp at hlen
  have hok : ∀ j, j < 1 → ∃ rr, put (0 + j) = Except.ok rr ∧ rr.ok = true := by
    intro j hj
    have : j = 0 := by omega
    subst this
    exact ⟨r0, by simpa using hp0, hr0⟩
  have hfail : (∃ e2, put (0 + 1) = Except.error e2 ∧ e = e2) ∨
      (∃ rr, put (0 + 1) = Except.ok rr ∧ rr.ok = false ∧ e = rr.text) :=
    Or.inl ⟨e, by simpa using hp1, rfl⟩
  have hloop := chunkLoop_fail put content ctype (250 * 1024 * 1024) urls 0 [] [] 1 e
    (by omega) hok hfail
  rw [upload_file_loop fid urls put content ctype (urls_isEmpty_false hne)]
  rw [hloop]
  refine ⟨?_, by simp, by simp⟩
  show UploadOutcome.jsonError _ 500 = UploadOutcome.jsonError _ 500
  congr 1

/-- C1 counterexample: a successful PUT whose response has no ETag header
does not abort the upload — the loop continues, and `complete_upload` is
invoked with a parts list that skips the ETag-less chunk (part numbers
with a gap). -/
theorem upload_missing_etag_counterexample :
    (upload_file (Except.ok ⟨PyVal.int 7, ["u0", "u1"]⟩)
        (fun i => if i = 0 then Except.ok ⟨true, "", Option.none⟩
                  else Except.ok ⟨true, "", Option.some "e2"⟩)
        (List.replicate 2 0) "t").2 =
      UploadOutcome.completed (PyVal.int 7) [⟨2, "e2"⟩] ∧
    [(⟨2, "e2"⟩ : PartRec)].map PartRec.part_number ≠ [1, 2] :=
  ⟨rfl, by decide⟩

/-- C1 (amended): a raised transport call or an unsuccessful response
status aborts the upload — `complete_upload` is never called and the route
returns the terminal chunk error; but a successful response without an
ETag does not abort: its part record is merely skipped, and completion is
invoked with exactly the part records of those chunks whose responses
carried an ETag (part number = chunk index + 1), possibly with gaps. -/
theorem upload_abort_spec (urls : List String) (put : ℕ → Except String S3Response)
    (content : List ℕ) (ctype : String) (fid : PyVal) (f : ℕ) (e : String) (r : S3Response) :
    (f < urls.length →
     (∀ j, j < f → ∃ rr, put j = Except.ok rr ∧ rr.ok = true) →
     put f = Except.error e →
       (upload_file (Except.ok ⟨fid, urls⟩) put content ctype).2 =
         UploadOutcome.jsonError
           ("Failed to upload chunk " ++ toString (f + 1) ++ ": " ++ e) 500 ∧
       ∀ f2 parts, (upload_file (Except.ok ⟨fid, urls⟩) put content ctype).2 ≠
         UploadOutcome.completed f2 parts) ∧
    (f < urls.length →
     (∀ j, j < f → ∃ rr, put j = Except.ok rr ∧ rr.ok = true) →
     put f = Except.ok r → r.ok = false →
       (upload_file (Except.ok ⟨fid, urls⟩) put content ctype).2 =
         UploadOutcome.jsonError
           ("Failed to upload chunk " ++ toString (f + 1) ++ ": " ++ r.text) 500 ∧
       ∀ f2 parts, (upload_file (Except.ok ⟨fid, urls⟩) put content ctype).2 ≠
         UploadOutcome.completed f2 parts) ∧
    ((∀ j, j < urls.length → ∃ rr, put j = Except.ok rr ∧ rr.ok = true) → urls ≠ [] →
       (upload_file (Except.ok ⟨fid, urls⟩) put content ctype).2 =
         UploadOutcome.completed fid
           ((List.range urls.length).filterMap
             (fun j => match put j with
                       | Except.ok rr => rr.etag.map (fun t => (⟨j + 1, t⟩ : PartRec))
                       | Except.error _ => Option.none))) := by
  refine ⟨?_, ?_, ?_⟩
  · intro hf hok hpf
    have hne : urls ≠ [] := by intro h; rw [h] at hf; simp at hf
    have hloop := chunkLoop_fail put content ctype (250 * 1024 * 1024) urls 0 [] [] f e hf
      (fun j hj => by obtain ⟨rr, h1, h2⟩ := hok j hj; exact ⟨rr, by simpa using h1, h2⟩)
      (Or.inl ⟨e, by simpa using hpf, rfl⟩)
    rw [upload_file_loop fid urls put content ctype (urls_isEmpty_false hne), hloop]
    constructor
    · simp
    · simp
  · intro hf hok hpf hrok
    have hne : urls ≠ [] := by intro h; rw [h] at hf; simp at hf
    have hloop := chunkLoop_fail put content ctype (250 * 1024 * 1024) urls 0 [] [] f r.text hf
      (fun j hj => by obtain ⟨rr, h1, h2⟩ := hok j hj; exact ⟨rr, by simpa using h1, h2⟩)
      (Or.inr ⟨r, by simpa using hpf, hrok, rfl⟩)
    rw [upload_file_loop fid urls put content ctype (urls_isEmpty_false hne), hloop]
    constructor
    · simp
    · simp
  · intro hok hne
    rw [upload_file_loop fid urls put content ctype (urls_isEmpty_false hne)]
    rw [chunkLoop_ok put content ctype (250 * 1024 * 1024) urls 0 [] []
      (fun j hj => by obtain ⟨rr, h1, h2⟩ := hok j hj; exact ⟨rr, by simpa using h1, h2⟩)]
    simp only [List.nil_append, Nat.zero_add]

/-- Witness for `upload_abort_spec`: one URL whose PUT raises aborts the
upload with the chunk-1 error. -/
theorem upload_abort_spec_witness :
    (upload_file (Except.ok ⟨PyVal.int 3, ["u"]⟩) (fun _ => Except.error "boom") [] "t").2 =
      UploadOutcome.jsonError ("Failed to upload chunk " ++ toString (0 + 1) ++ ": " ++ "boom") 500 :=
  ((upload_abort_spec ["u"] (fun _ => Except.error "boom") [] "t" (PyVal.int 3) 0 "boom"
      ⟨true, "", Option.none⟩).1 (by decide) (fun j hj => absurd hj (by omega)) rfl).1

/-- Witness for `upload_second_chunk_failure` at a concrete environment. -/
theorem upload_second_chunk_failure_witness :
    (upload_file (Except.ok ⟨PyVal.int 5, ["u0", "u1"]⟩)
        (fun i => if i = 0 then Except.ok ⟨true, "", Option.some "e1"⟩
                  else Except.error "down")
        [] "t").2 =
      UploadOutcome.jsonError ("Failed to upload chunk 2: " ++ "down") 500 :=
  ((upload_second_chunk_failure ["u0", "u1"]
      (fun i => if i = 0 then Except.ok ⟨true, "", Option.some "e1"⟩
                else Except.error "down")
      [] "t" (PyVal.int 5) ⟨true, "", Option.some "e1"⟩ "down"
      (by decide) rfl rfl rfl).1)

lemma pySize_pos (v : PyVal) : 0 < pySize v := by
  cases v with
  | obj d =>
    cases d with
    | nil => simp [pySize]
    | cons p rest => cases p; simp [pySize]
  | list l =>
    cases l with
    | nil => simp [pySize]
    | cons x rest => simp [pySize]
  | none => simp [pySize]
  | bool b => simp [pySize]
  | int n => simp [pySize]
  | str s => simp [pySize]

lemma obj_truthy {d : List (String × PyVal)} (h : d ≠ []) :
    pyTruthy (PyVal.obj d) = true := by
  cases d with
  | nil => exact absurd rfl h
  | cons p rest => rfl

lemma dictFind_setKey_self (d : List (String × PyVal)) (k : String) (v : PyVal) :
    dictFind (setKey d k v) k = Option.some v := by
  induction d with
  | nil => simp [setKey, dictFind]
  | cons p rest ih =>
    by_cases h : p.1 = k
    · simp [setKey, h, dictFind]
    · cases p
      simp_all [setKey, dictFind, h]

lemma dictFind_setKey_ne (d : List (String × PyVal)) (k q : String) (v : PyVal)
    (h : q ≠ k) : dictFind (setKey d k v) q = dictFind d q := by
  have hne : ¬ k = q := fun hh => h hh.symm
  induction d with
  | nil => simp [setKey, dictFind, hne]
  | cons p rest ih =>
    cases p with
    | mk k0 v0 =>
      by_cases h0 : k0 = k
      · subst h0
        simp [setKey, dictFind, hne]
      · simp [setKey, dictFind, h0, ih]

lemma dictHas_setKey (d : List (String × PyVal)) (k q : String) (v : PyVal)
    (h : dictHas d q = true) : dictHas (setKey d k v) q = true := by
  by_cases hk : q = k
  · subst hk
    simp [dictHas, dictFind_setKey_self]
  · simpa [dictHas, dictFind_setKey_ne d k q v hk] using h

lemma updateObj_cons (d : List (String × PyVal)) (k : String) (v : PyVal)
    (rest : List (String × PyVal)) :
    updateObj d ((k, v) :: rest) = updateObj (setKey d k v) rest := rfl

lemma dictFind_updateObj_not_mem (kvs : List (String × PyVal)) :
    ∀ (d : List (String × PyVal)) (q : String), (∀ p ∈ kvs, p.1 ≠ q) →
    dictFind (updateObj d kvs) q = dictFind d q := by
  induction kvs with
  | nil => intro d q _; rfl
  | cons p rest ih =>
    intro d q h
    cases p with
    | mk k0 v0 =>
      rw [updateObj_cons, ih _ q (fun p hp => h p (List.mem_cons_of_mem _ hp))]
      exact dictFind_setKey_ne d k0 q v0 (fun hq => h (k0, v0) (List.mem_cons_self _ _) hq.symm)

lemma dictFind_updateObj_mem (kvs : List (String × PyVal)) :
    ∀ (d : List (String × PyVal)) (q : String) (v : PyVal),
    (kvs.map Prod.fst).Nodup → dictFind kvs q = Option.some v →
    dictFind (updateObj d kvs) q = Option.some v := by
  induction kvs with
  | nil => intro d q v _ h; simp [dictFind] at h
  | cons p rest ih =>
    intro d q v hnd h
    cases p with
    | mk k0 v0 =>
      rw [List.map_cons] at hnd
      obtain ⟨hnotin, hnd2⟩ := List.nodup_cons.mp hnd
      rw [updateObj_cons]
      by_cases h0 : k0 = q
      · subst h0
        have hv : v = v0 := by
          simp [dictFind] at h
          exact h.symm
        subst hv
        have hrest : ∀ p ∈ rest, p.1 ≠ k0 := by
          intro p hp he
          apply hnotin
          rw [← he]
          exact List.mem_map_of_mem (a := p) Prod.fst hp
        rw [dictFind_updateObj_not_mem rest _ k0 hrest]
        exact dictFind_setKey_self d k0 v
      · have hrest : dictFind rest q = Option.some v := by
          simpa [dictFind, h0] using h
        exact ih _ q v hnd2 hrest

lemma dictHas_updateObj (kvs : List (String × PyVal)) :
    ∀ (d : List (String × PyVal)) (q : String), dictHas d q = true →
    dictHas (updateObj d kvs) q = true := by
  induction kvs with
  | nil => intro d q h; exact h
  | cons p rest ih =>
    intro d q h
    cases p with
    | mk k0 v0 =>
      rw [updateObj_cons]
      exact ih _ q (dictHas_setKey d k0 q v0 h)

lemma relStepWith_inert (flat : PyVal → Except String (List (String × PyVal)))
    (res : List (String × PyVal)) (key : String)
    (h : ∀ v, dictFind res key = Option.some v → isFlattenableSub v = false) :
    relStepWith flat res key = Except.ok res := by
  unfold relStepWith
  cases hf : dictFind res key with
  | none => rfl
  | some v => simp [h v hf]

lemma relStepWith_ok_shape (flat : PyVal → Except String (List (String × PyVal)))
    (res res2 : List (String × PyVal)) (key : String)
    (h : relStepWith flat res key = Except.ok res2) :
    res2 = res ∨ ∃ fv, res2 = setKey res key (PyVal.obj fv) := by
  unfold relStepWith at h
  repeat' split at h
  all_goals first
    | exact Or.inl (Except.ok.inj h).symm
    | exact Or.inr ⟨_, (Except.ok.inj h).symm⟩
    | simp at h

lemma swStepWith_inert (flat : PyVal → Except String (List (String × PyVal)))
    (res : List (String × PyVal))
    (h : ∀ sd, dictFind res "softwares" ≠ Option.some (PyVal.obj sd)) :
    swStepWith flat res = Except.ok res := by
  unfold swStepWith
  cases hf : dictFind res "softwares" with
  | none => rfl
  | some v =>
    cases v with
    | obj sd => exact absurd hf (h sd)
    | none => rfl
    | bool b => rfl
    | int n => rfl
    | str s => rfl
    | list l => rfl

lemma swStepWith_ok_shape (flat : PyVal → Except String (List (String × PyVal)))
    (res res2 : List (String × PyVal))
    (h : swStepWith flat res = Except.ok res2) :
    res2 = res ∨ ∃ v, res2 = setKey res "softwares" v := by
  unfold swStepWith at h
  repeat' split at h
  all_goals first
    | exact Or.inl (Except.ok.inj h).symm
    | exact Or.inr ⟨_, (Except.ok.inj h).symm⟩
    | simp at h

lemma flatten_obj_unfold (d : List (String × PyVal)) (hne : d ≠ []) :
    ∃ fl, flatten_jsonapi_resource (PyVal.obj d) =
      (if pyTruthy (dictGetD d "attributes" (PyVal.obj [])) then
        match pyUpdateWith [("id", dictGetD d "id" PyVal.none),
            ("type", dictGetD d "type" PyVal.none)]
            (dictGetD d "attributes" (PyVal.obj [])) with
        | Except.error e => Except.error e
        | Except.ok merged =>
          match relStepWith fl merged "user" with
          | Except.error e => Except.error e
          | Except.ok r1 =>
            match relStepWith fl r1 "machine" with
            | Except.error e => Except.error e
            | Except.ok r2 => swStepWith fl r2
      else Except.ok [("id", dictGetD d "id" PyVal.none),
        ("type", dictGetD d "type" PyVal.none)]) := by
  obtain ⟨m, hm⟩ : ∃ m, pySize (PyVal.obj d) = m + 1 :=
    ⟨pySize (PyVal.obj d) - 1, by have := pySize_pos (PyVal.obj d); omega⟩
  refine ⟨flattenF m, ?_⟩
  rw [flatten_jsonapi_resource, hm]
  simp only [flattenF, obj_truthy hne]
  rfl

lemma dictHas_updateFromPairs (items : List PyVal) :
    ∀ (d merged : List (String × PyVal)) (q : String),
    updateFromPairs d items = Except.ok merged → dictHas d q = true →
    dictHas merged q = true := by
  induction items with
  | nil =>
    intro d merged q h hq
    simp only [updateFromPairs] at h
    obtain rfl := Except.ok.inj h
    exact hq
  | cons item rest ih =>
    intro d merged q h hq
    simp only [updateFromPairs] at h
    split at h
    · exact absurd h (by simp)
    · exact ih d merged q h hq
    · rename_i k v heq
      exact ih _ merged q h (dictHas_setKey d k q v hq)

lemma pyUpdateWith_keeps (d : List (String × PyVal)) (a : PyVal)
    (merged : List (String × PyVal)) (q : String)
    (h : pyUpdateWith d a = Except.ok merged) (hq : dictHas d q = true) :
    dictHas merged q = true := by
  cases a with
  | obj kvs =>
    simp only [pyUpdateWith] at h
    obtain rfl := Except.ok.inj h
    exact dictHas_updateObj kvs d q hq
  | list items => exact dictHas_updateFromPairs items d merged q h hq
  | str s =>
    simp only [pyUpdateWith] at h
    by_cases hs : s = ""
    · rw [if_pos hs] at h
      obtain rfl := Except.ok.inj h
      exact hq
    · rw [if_neg hs] at h
      exact absurd h (by simp)
  | int n => simp [pyUpdateWith] at h
  | bool b => simp [pyUpdateWith] at h
  | none => simp [pyUpdateWith] at h

lemma flatten_no_attrs (d : List (String × PyVal)) (hne : d ≠ [])
    (hattr : pyTruthy (dictGetD d "attributes" (PyVal.obj [])) = false) :
    flatten_jsonapi_resource (PyVal.obj d) =
      Except.ok [("id", dictGetD d "id" PyVal.none),
        ("type", dictGetD d "type" PyVal.none)] := by
  obtain ⟨fl, hu⟩ := flatten_obj_unfold d hne
  rw [hu, if_neg (by simp [hattr])]

lemma flatten_update_error (d : List (String × PyVal)) (a : PyVal) (e : String)
    (hfind : dictFind d "attributes" = Option.some a) (ht : pyTruthy a = true)
    (hup : pyUpdateWith [("id", dictGetD d "id" PyVal.none),
      ("type", dictGetD d "type" PyVal.none)] a = Except.error e) :
    flatten_jsonapi_resource (PyVal.obj d) = Except.error e := by
  have hne : d ≠ [] := by
    intro h; rw [h] at hfind; simp [dictFind] at hfind
  obtain ⟨fl, hu⟩ := flatten_obj_unfold d hne
  have hgetd : dictGetD d "attributes" (PyVal.obj []) = a := by
    unfold dictGetD; rw [hfind]
  rw [hu, hgetd, if_pos (by simp [ht]), hup]

lemma flatten_merged_inert (d attrs : List (String × PyVal))
    (hfind : dictFind d "attributes" = Option.some (PyVal.obj attrs))
    (hat : attrs ≠ [])
    (hU : ∀ v, dictFind (updateObj [("id", dictGetD d "id" PyVal.none),
        ("type", dictGetD d "type" PyVal.none)] attrs) "user" = Option.some v →
      isFlattenableSub v = false)
    (hM : ∀ v, dictFind (updateObj [("id", dictGetD d "id" PyVal.none),
        ("type", dictGetD d "type" PyVal.none)] attrs) "machine" = Option.some v →
      isFlattenableSub v = false)
    (hS : ∀ sd, dictFind (updateObj [("id", dictGetD d "id" PyVal.none),
        ("type", dictGetD d "type" PyVal.none)] attrs) "softwares" ≠
      Option.some (PyVal.obj sd)) :
    flatten_jsonapi_resource (PyVal.obj d) =
      Except.ok (updateObj [("id", dictGetD d "id" PyVal.none),
        ("type", dictGetD d "type" PyVal.none)] attrs) := by
  have hne : d ≠ [] := by
    intro h; rw [h] at hfind; simp [dictFind] at hfind
  obtain ⟨fl, hu⟩ := flatten_obj_unfold d hne
  have hgetd : dictGetD d "attributes" (PyVal.obj []) = PyVal.obj attrs := by
    unfold dictGetD; rw [hfind]
  rw [hu, hgetd, if_pos (by simp [obj_truthy hat])]
  simp only [pyUpdateWith]
  simp only [relStepWith_inert fl _ _ hU, relStepWith_inert fl _ _ hM,
    swStepWith_inert fl _ hS]

lemma dictHas_base_id (a b : PyVal) :
    dictHas [("id", a), ("type", b)] "id" = true := by simp [dictHas, dictFind]

lemma dictHas_base_type (a b : PyVal) :
    dictHas [("id", a), ("type", b)] "type" = true := by simp [dictHas, dictFind]

lemma dictHas_relStep (flat : PyVal → Except String (List (String × PyVal)))
    (res res2 : List (String × PyVal)) (key q : String)
    (h : relStepWith flat res key = Except.ok res2) (hq : dictHas res q = true) :
    dictHas res2 q = true := by
  rcases relStepWith_ok_shape flat res res2 key h with rfl | ⟨fv, rfl⟩
  · exact hq
  · exact dictHas_setKey res key q _ hq

lemma dictHas_swStep (flat : PyVal → Except String (List (String × PyVal)))
    (res res2 : List (String × PyVal)) (q : String)
    (h : swStepWith flat res = Except.ok res2) (hq : dictHas res q = true) :
    dictHas res2 q = true := by
  rcases swStepWith_ok_shape flat res res2 h with rfl | ⟨v, rfl⟩
  · exact hq
  · exact dictHas_setKey res "softwares" q v hq

lemma flattenF_ok_keys (fuel : ℕ) (v : PyVal) (out : List (String × PyVal))
    (h : flattenF fuel v = Except.ok out) (ht : pyTruthy v = true) :
    dictHas out "id" = true ∧ dictHas out "type" = true := by
  match fuel with
  | 0 => simp [flattenF] at h
  | m + 1 =>
    cases v with
    | none => simp [pyTruthy] at ht
    | bool b =>
      simp [pyTruthy] at ht
      simp [flattenF, pyTruthy, ht] at h
    | int n =>
      simp [pyTruthy] at ht
      simp [flattenF, pyTruthy, ht] at h
    | str s =>
      simp [pyTruthy] at ht
      simp [flattenF, pyTruthy, ht] at h
    | list l =>
      simp [pyTruthy] at ht
      simp [flattenF, pyTruthy, ht] at h
    | obj d =>
      rw [show flattenF (m + 1) (PyVal.obj d) =
          (if pyTruthy (PyVal.obj d) = false then Except.ok [] else
            (if pyTruthy (dictGetD d "attributes" (PyVal.obj [])) then
              match pyUpdateWith [("id", dictGetD d "id" PyVal.none),
                  ("type", dictGetD d "type" PyVal.none)]
                  (dictGetD d "attributes" (PyVal.obj [])) with
              | Except.error e => Except.error e
              | Except.ok merged =>
                match relStepWith (flattenF m) merged "user" with
                | Except.error e => Except.error e
                | Except.ok r1 =>
                  match relStepWith (flattenF m) r1 "machine" with
                  | Except.error e => Except.error e
                  | Except.ok r2 => swStepWith (flattenF m) r2
            else Except.ok [("id", dictGetD d "id" PyVal.none),
              ("type", dictGetD d "type" PyVal.none)])) from rfl] at h
      rw [if_neg (by simp [ht])] at h
      by_cases hA : pyTruthy (dictGetD d "attributes" (PyVal.obj [])) = true
      · rw [if_pos (by simp [hA])] at h
        split at h
        · simp at h
        · rename_i merged hup
          split at h
          · simp at h
          · rename_i r1 hrel1
            split at h
            · simp at h
            · rename_i r2 hrel2
              have hbase : dictHas merged "id" = true ∧ dictHas merged "type" = true :=
                ⟨pyUpdateWith_keeps _ _ _ _ hup (dictHas_base_id _ _),
                 pyUpdateWith_keeps _ _ _ _ hup (dictHas_base_type _ _)⟩
              have h1 : dictHas r1 "id" = true ∧ dictHas r1 "type" = true :=
                ⟨dictHas_relStep _ _ _ _ _ hrel1 hbase.1,
                 dictHas_relStep _ _ _ _ _ hrel1 hbase.2⟩
              have h2 : dictHas r2 "id" = true ∧ dictHas r2 "type" = true :=
                ⟨dictHas_relStep _ _ _ _ _ hrel2 h1.1,
                 dictHas_relStep _ _ _ _ _ hrel2 h1.2⟩
              exact ⟨dictHas_swStep _ _ _ _ h h2.1, dictHas_swStep _ _ _ _ h h2.2⟩
      · rw [if_neg (by simpa using hA)] at h
        have hout : out = [("id", dictGetD d "id" PyVal.none),
            ("type", dictGetD d "type" PyVal.none)] := (Except.ok.inj h).symm
        subst hout
        exact ⟨dictHas_base_id _ _, dictHas_base_type _ _⟩

lemma dictFind_relStep_ne (flat : PyVal → Except String (List (String × PyVal)))
    (res res2 : List (String × PyVal)) (key q : String)
    (h : relStepWith flat res key = Except.ok res2) (hq : q ≠ key) :
    dictFind res2 q = dictFind res q := by
  rcases relStepWith_ok_shape flat res res2 key h with rfl | ⟨fv, rfl⟩
  · rfl
  · exact dictFind_setKey_ne res key q _ hq

lemma dictFind_swStep_ne (flat : PyVal → Except String (List (String × PyVal)))
    (res res2 : List (String × PyVal)) (q : String)
    (h : swStepWith flat res = Except.ok res2) (hq : q ≠ "softwares") :
    dictFind res2 q = dictFind res q := by
  rcases swStepWith_ok_shape flat res res2 h with rfl | ⟨v, rfl⟩
  · rfl
  · exact dictFind_setKey_ne res "softwares" q v hq

lemma flatten_attr_value (d attrs : List (String × PyVal)) (q : String) (v : PyVal)
    (out : List (String × PyVal))
    (hq : q = "id" ∨ q = "type")
    (hfind : dictFind d "attributes" = Option.some (PyVal.obj attrs))
    (hnd : (attrs.map Prod.fst).Nodup)
    (hv : dictFind attrs q = Option.some v)
    (hout : flatten_jsonapi_resource (PyVal.obj d) = Except.ok out) :
    dictFind out q = Option.some v := by
  have hne : d ≠ [] := by
    intro hh; rw [hh] at hfind; simp [dictFind] at hfind
  obtain ⟨fl, hu⟩ := flatten_obj_unfold d hne
  rw [hu] at hout
  have hgetd : dictGetD d "attributes" (PyVal.obj []) = PyVal.obj attrs := by
    unfold dictGetD; rw [hfind]
  rw [hgetd] at hout
  have hat : attrs ≠ [] := by
    intro hh; rw [hh] at hv; simp [dictFind] at hv
  rw [if_pos (by simp [obj_truthy hat])] at hout
  simp only [pyUpdateWith] at hout
  split at hout
  · simp at hout
  · rename_i r1 hrel1
    split at hout
    · simp at hout
    · rename_i r2 hrel2
      have hqu : q ≠ "user" := by rcases hq with rfl | rfl <;> decide
      have hqm : q ≠ "machine" := by rcases hq with rfl | rfl <;> decide
      have hqs : q ≠ "softwares" := by rcases hq with rfl | rfl <;> decide
      rw [dictFind_swStep_ne fl r2 out q hout hqs,
          dictFind_relStep_ne fl r1 r2 "machine" q hrel2 hqm,
          dictFind_relStep_ne fl _ r1 "user" q hrel1 hqu]
      exact dictFind_updateObj_mem attrs _ q v hnd hv

/-- C5 counterexample: for an unparsable body the surfaced message is the
stripped response text, not the raw text — `"  boom  "` is surfaced as
`"boom"`. -/
theorem parse_error_strip_counterexample :
    parse_error_response ⟨500, "  boom  ", Option.none⟩ =
      Except.ok (PyVal.str "boom", PyVal.int 500) ∧
    ("boom" : String) ≠ "  boom  " :=
  ⟨rfl, by decide⟩

/-- C5 (amended): the 402 error body with client_code 480 is surfaced as
status 402, message "Not enough funds", client_code 480; a parsed body
without client_code defaults it to the HTTP status; an unparsable body is
surfaced as the whitespace-stripped response text, or the synthesized
"HTTP <status> - No response body" when the text is empty or whitespace
only. -/
theorem parse_error_spec (st : ℕ) (t : String) (d : List (String × PyVal)) :
    (surfaceError ⟨402, "", Option.some (PyVal.obj
        [("message", PyVal.str "Not enough funds"), ("client_code", PyVal.int 480)])⟩ =
      Except.ok ⟨402, PyVal.str "Not enough funds", PyVal.int 480⟩) ∧
    (dictFind d "client_code" = Option.none →
      parse_error_response ⟨st, t, Option.some (PyVal.obj d)⟩ =
        Except.ok (dictGetD d "message" (dictGetD d "error" (PyVal.str "Unknown error")),
          PyVal.int st)) ∧
    (pyStrip t ≠ "" →
      parse_error_response ⟨st, t, Option.none⟩ =
        Except.ok (PyVal.str (pyStrip t), PyVal.int st)) ∧
    (pyStrip t = "" →
      parse_error_response ⟨st, t, Option.none⟩ =
        Except.ok (PyVal.str ("HTTP " ++ toString st ++ " - No response body"),
          PyVal.int st)) := by
  refine ⟨rfl, ?_, ?_, ?_⟩
  · intro h
    simp only [parse_error_response]
    unfold dictGetD
    rw [h]
  · intro h
    have ht : t ≠ "" := by
      intro hh
      subst hh
      exact h rfl
    simp only [parse_error_response]
    rw [if_neg ht, if_neg h]
  · intro h
    by_cases ht : t = ""
    · subst ht
      simp [parse_error_response]
    · simp only [parse_error_response]
      rw [if_neg ht, if_pos h]

/-- Witness for `parse_error_spec`: a body omitting client_code surfaces
the HTTP status as client_code. -/
theorem parse_error_spec_witness :
    parse_error_response ⟨500, "", Option.some (PyVal.obj [("message", PyVal.str "m")])⟩ =
      Except.ok (PyVal.str "m", PyVal.int 500) :=
  (parse_error_spec 500 "" [("message", PyVal.str "m")]).2.1 rfl

/-- C6 counterexample: `flatten_jsonapi_resource` is not total — an input
whose truthy `attributes` value is neither a mapping nor an iterable of
key/value pairs — the integer 5 — makes `result.update(attributes)` raise
`TypeError` instead of being treated as empty. -/
theorem flatten_typeerror_counterexample :
    flatten_jsonapi_resource (PyVal.obj [("attributes", PyVal.int 5)]) =
      Except.error "TypeError: int object is not iterable" := by
  simp [flatten_jsonapi_resource, pySize, flattenF, pyTruthy, dictGetD, dictFind,
    pyUpdateWith]

/-- C6 (amended): the transform is pure and degrades gracefully on
malformed nested values — a falsy `attributes` yields the bare
`{id, type}` mapping, non-flattenable `user`/`machine` values and a
non-dict `softwares` value are left untouched, and a `softwares` dict
whose `data` is not a list becomes the empty list, and an `attributes`
value that is an iterable of key/value pairs is merged like a mapping —
but it is not error-free: a truthy `attributes` that is not iterable, such
as a non-zero integer, raises `TypeError`. -/
theorem flatten_graceful_spec (d attrs : List (String × PyVal)) :
    (d ≠ [] → pyTruthy (dictGetD d "attributes" (PyVal.obj [])) = false →
      flatten_jsonapi_resource (PyVal.obj d) =
        Except.ok [("id", dictGetD d "id" PyVal.none),
          ("type", dictGetD d "type" PyVal.none)]) ∧
    (dictFind d "attributes" = Option.some (PyVal.obj attrs) → attrs ≠ [] →
     (∀ v, dictFind (updateObj [("id", dictGetD d "id" PyVal.none),
         ("type", dictGetD d "type" PyVal.none)] attrs) "user" = Option.some v →
       isFlattenableSub v = false) →
     (∀ v, dictFind (updateObj [("id", dictGetD d "id" PyVal.none),
         ("type", dictGetD d "type" PyVal.none)] attrs) "machine" = Option.some v →
       isFlattenableSub v = false) →
     (∀ sd, dictFind (updateObj [("id", dictGetD d "id" PyVal.none),
         ("type", dictGetD d "type" PyVal.none)] attrs) "softwares" ≠
       Option.some (PyVal.obj sd)) →
      flatten_jsonapi_resource (PyVal.obj d) =
        Except.ok (updateObj [("id", dictGetD d "id" PyVal.none),
          ("type", dictGetD d "type" PyVal.none)] attrs)) ∧
    (flatten_jsonapi_resource (PyVal.obj [("id", PyVal.str "1"),
        ("attributes", PyVal.obj [("softwares", PyVal.obj [("data", PyVal.int 7)])])]) =
      Except.ok [("id", PyVal.str "1"), ("type", PyVal.none),
        ("softwares", PyVal.list [])]) ∧
    (∀ n : ℤ, dictFind d "attributes" = Option.some (PyVal.int n) → n ≠ 0 →
      flatten_jsonapi_resource (PyVal.obj d) =
        Except.error "TypeError: int object is not iterable") ∧
    (flatten_jsonapi_resource (PyVal.obj [("attributes",
        PyVal.list [PyVal.list [PyVal.str "a", PyVal.int 1]])]) =
      Except.ok [("id", PyVal.none), ("type", PyVal.none), ("a", PyVal.int 1)]) := by
  refine ⟨flatten_no_attrs d, flatten_merged_inert d attrs, ?_, ?_, ?_⟩
  · simp [flatten_jsonapi_resource, pySize, flattenF, pyTruthy, dictGetD, dictFind,
      dictHas, pyUpdateWith, updateObj, setKey, relStepWith, swStepWith, isFlattenableSub]
  · intro n hfind hn
    exact flatten_update_error d (PyVal.int n) _ hfind (by simp [pyTruthy, hn]) rfl
  · simp [flatten_jsonapi_resource, pySize, flattenF, pyTruthy, dictGetD, dictFind,
      dictHas, pyUpdateWith, updateFromPairs, updateElemPair, updateObj, setKey,
      relStepWith, swStepWith, isFlattenableSub]

/-- Witness for `flatten_graceful_spec`: a malformed (non-flattenable)
`user` value and non-dict `softwares` are kept as-is. -/
theorem flatten_graceful_spec_witness :
    flatten_jsonapi_resource (PyVal.obj [("id", PyVal.str "1"),
        ("attributes", PyVal.obj [("user", PyVal.int 3), ("softwares", PyVal.int 9)])]) =
      Except.ok (updateObj [("id", dictGetD [("id", PyVal.str "1"),
          ("attributes", PyVal.obj [("user", PyVal.int 3), ("softwares", PyVal.int 9)])]
          "id" PyVal.none),
        ("type", dictGetD [("id", PyVal.str "1"),
          ("attributes", PyVal.obj [("user", PyVal.int 3), ("softwares", PyVal.int 9)])]
          "type" PyVal.none)]
        [("user", PyVal.int 3), ("softwares", PyVal.int 9)]) :=
  (flatten_graceful_spec [("id", PyVal.str "1"),
      ("attributes", PyVal.obj [("user", PyVal.int 3), ("softwares", PyVal.int 9)])]
      [("user", PyVal.int 3), ("softwares", PyVal.int 9)]).2.1 rfl
    (by simp)
    (by intro v hv; simp [updateObj, setKey, dictGetD, dictFind] at hv
        subst hv; rfl)
    (by intro v hv; simp [updateObj, setKey, dictGetD, dictFind] at hv)
    (by intro sd hv; simp [updateObj, setKey, dictGetD, dictFind] at hv)

/-- C7: the flatten helper maps `{}` and `None` to `{}`, maps the envelope
`{id, type, attributes}` to the single-level `{id, type, ...attributes}`
mapping, recursively flattens a nested sub-resource under the known
relation keys, and converts a `softwares` data list into a flattened
list. -/
theorem flatten_envelope_spec (d attrs : List (String × PyVal)) :
    flatten_jsonapi_resource (PyVal.obj []) = Except.ok [] ∧
    flatten_jsonapi_resource PyVal.none = Except.ok [] ∧
    (flatten_jsonapi_resource (PyVal.obj [("id", PyVal.str "1"),
        ("type", PyVal.str "seat"), ("attributes", PyVal.obj [("name", PyVal.str "A")])]) =
      Except.ok [("id", PyVal.str "1"), ("type", PyVal.str "seat"),
        ("name", PyVal.str "A")]) ∧
    (dictFind d "attributes" = Option.some (PyVal.obj attrs) → attrs ≠ [] →
     (∀ v, dictFind (updateObj [("id", dictGetD d "id" PyVal.none),
         ("type", dictGetD d "type" PyVal.none)] attrs) "user" = Option.some v →
       isFlattenableSub v = false) →
     (∀ v, dictFind (updateObj [("id", dictGetD d "id" PyVal.none),
         ("type", dictGetD d "type" PyVal.none)] attrs) "machine" = Option.some v →
       isFlattenableSub v = false) →
     (∀ sd, dictFind (updateObj [("id", dictGetD d "id" PyVal.none),
         ("type", dictGetD d "type" PyVal.none)] attrs) "softwares" ≠
       Option.some (PyVal.obj sd)) →
      flatten_jsonapi_resource (PyVal.obj d) =
        Except.ok (updateObj [("id", dictGetD d "id" PyVal.none),
          ("type", dictGetD d "type" PyVal.none)] attrs)) ∧
    (flatten_jsonapi_resource (PyVal.obj [("id", PyVal.str "1"), ("type", PyVal.str "s"),
        ("attributes", PyVal.obj [("user", PyVal.obj [("id", PyVal.str "u"),
          ("type", PyVal.str "user"),
          ("attributes", PyVal.obj [("name", PyVal.str "U")])])])]) =
      Except.ok [("id", PyVal.str "1"), ("type", PyVal.str "s"),
        ("user", PyVal.obj [("id", PyVal.str "u"), ("type", PyVal.str "user"),
          ("name", PyVal.str "U")])]) ∧
    (flatten_jsonapi_resource (PyVal.obj [("id", PyVal.str "1"), ("type", PyVal.str "m"),
        ("attributes", PyVal.obj [("softwares", PyVal.obj [("data",
          PyVal.list [PyVal.obj [("id", PyVal.str "s1"), ("type", PyVal.str "software"),
            ("attributes", PyVal.obj [("name", PyVal.str "X")])]])])])]) =
      Except.ok [("id", PyVal.str "1"), ("type", PyVal.str "m"),
        ("softwares", PyVal.list [PyVal.obj [("id", PyVal.str "s1"),
          ("type", PyVal.str "software"), ("name", PyVal.str "X")]])]) := by
  refine ⟨by simp [flatten_jsonapi_resource, pySize, flattenF, pyTruthy],
    by simp [flatten_jsonapi_resource, pySize, flattenF, pyTruthy], ?_,
    flatten_merged_inert d attrs, ?_, ?_⟩
  · simp [flatten_jsonapi_resource, pySize, flattenF, pyTruthy, dictGetD, dictFind,
      dictHas, pyUpdateWith, updateObj, setKey, relStepWith, swStepWith, isFlattenableSub]
  · simp [flatten_jsonapi_resource, pySize, flattenF, pyTruthy, dictGetD, dictFind,
      dictHas, pyUpdateWith, updateObj, setKey, relStepWith, swStepWith, isFlattenableSub]
  · simp [flatten_jsonapi_resource, pySize, flattenF, pyTruthy, dictGetD, dictFind,
      dictHas, pyUpdateWith, updateObj, setKey, relStepWith, swStepWith, isFlattenableSub,
      List.mapM, List.mapM.loop]

/-- Witness for `flatten_envelope_spec`: the general envelope conjunct at a
concrete resource. -/
theorem flatten_envelope_spec_witness :
    flatten_jsonapi_resource (PyVal.obj [("id", PyVal.str "9"),
        ("attributes", PyVal.obj [("name", PyVal.str "N")])]) =
      Except.ok (updateObj [("id", dictGetD [("id", PyVal.str "9"),
          ("attributes", PyVal.obj [("name", PyVal.str "N")])] "id" PyVal.none),
        ("type", dictGetD [("id", PyVal.str "9"),
          ("attributes", PyVal.obj [("name", PyVal.str "N")])] "type" PyVal.none)]
        [("name", PyVal.str "N")]) :=
  (flatten_envelope_spec [("id", PyVal.str "9"),
      ("attributes", PyVal.obj [("name", PyVal.str "N")])]
      [("name", PyVal.str "N")]).2.2.2.1 rfl (by simp)
    (by intro v hv; simp [updateObj, setKey, dictGetD, dictFind] at hv)
    (by intro v hv; simp [updateObj, setKey, dictGetD, dictFind] at hv)
    (by intro sd hv; simp [updateObj, setKey, dictGetD, dictFind] at hv)

/-- C10: an `attributes` entry named `id` or `type` overwrites the
resource-level identity field in the flattened output (attributes are
merged after the identity fields); and a non-empty resource always yields
an output containing both `id` and `type` keys, with value `None` for an
identity field absent from the input. -/
theorem flatten_identity_spec (d attrs out : List (String × PyVal)) (q : String) (v : PyVal) :
    ((q = "id" ∨ q = "type") →
     dictFind d "attributes" = Option.some (PyVal.obj attrs) →
     (attrs.map Prod.fst).Nodup →
     dictFind attrs q = Option.some v →
     flatten_jsonapi_resource (PyVal.obj d) = Except.ok out →
     dictFind out q = Option.some v) ∧
    (d ≠ [] → flatten_jsonapi_resource (PyVal.obj d) = Except.ok out →
     dictHas out "id" = true ∧ dictHas out "type" = true) ∧
    (d ≠ [] → pyTruthy (dictGetD d "attributes" (PyVal.obj [])) = false →
     dictFind d "id" = Option.none → dictFind d "type" = Option.none →
     flatten_jsonapi_resource (PyVal.obj d) =
       Except.ok [("id", PyVal.none), ("type", PyVal.none)]) ∧
    (flatten_jsonapi_resource (PyVal.obj [("id", PyVal.str "r"), ("type", PyVal.str "t"),
        ("attributes", PyVal.obj [("id", PyVal.str "a")])]) =
      Except.ok [("id", PyVal.str "a"), ("type", PyVal.str "t")]) := by
  refine ⟨fun hq hfind hnd hv hout => flatten_attr_value d attrs q v out hq hfind hnd hv hout,
    ?_, ?_, ?_⟩
  · intro hne hout
    exact flattenF_ok_keys (pySize (PyVal.obj d)) (PyVal.obj d) out hout (obj_truthy hne)
  · intro hne hattr hid htype
    rw [flatten_no_attrs d hne hattr]
    unfold dictGetD
    rw [hid, htype]
  · simp [flatten_jsonapi_resource, pySize, flattenF, pyTruthy, dictGetD, dictFind,
      dictHas, pyUpdateWith, updateObj, setKey, relStepWith, swStepWith, isFlattenableSub]

/-- Witness for `flatten_identity_spec`: an `id` attribute overwrites the
resource id in the output. -/
theorem flatten_identity_spec_witness :
    dictFind [("id", PyVal.str "x"), ("type", PyVal.none)] "id" =
      Option.some (PyVal.str "x") :=
  (flatten_identity_spec [("id", PyVal.str "r"),
      ("attributes", PyVal.obj [("id", PyVal.str "x")])]
      [("id", PyVal.str "x")] [("id", PyVal.str "x"), ("type", PyVal.none)]
      "id" (PyVal.str "x")).1
    (Or.inl rfl) rfl (by simp) rfl
    (by simp [flatten_jsonapi_resource, pySize, flattenF, pyTruthy, dictGetD, dictFind,
      dictHas, pyUpdateWith, updateObj, setKey, relStepWith, swStepWith, isFlattenableSub])
